import Mathlib

/-!
Verification of the TSM SavedVariables read-modify-write engine
(`tsm_scraper/lua_writer.py` and `tsm_scraper/lua_parser.py`).

The Python code is shallowly embedded: documents are lists of characters
(`Str`), Python string primitives (`in`, `count`, `replace`, `rfind`,
slicing, `split`, `join`) are modelled as executable Lean functions, the
regular-expression searches of the source are modelled as explicit
character-level matchers with the same semantics on the patterns the code
uses, and each mutating operation of `TSMLuaWriter` is translated into a
pure function from a document buffer to a result record plus the new
buffer.  File-system effects (backup-then-write) are modelled by a small
state machine over an explicit file-system state.
-/

/-- Documents and patterns are lists of characters. -/
abbrev Str := List Char

/-- Opening brace character (the table delimiter of the document format). -/
def obr : Char := '\x7b'

/-- Closing brace character. -/
def cbr : Char := '\x7d'

/-- Python whitespace class `\s` (space, tab, newline, carriage return,
form feed, vertical tab). -/
def isWs (c : Char) : Bool :=
  c = ' ' || c = '\t' || c = '\n' || c = '\r' || c = '\x0c' || c = '\x0b'

/-- Python `str.__contains__` (`p in s`): `p` occurs as a contiguous
substring of `s`. -/
def occursB (p : Str) : Str → Bool
  | [] => p.isEmpty
  | c :: t => p.isPrefixOf (c :: t) || occursB p t

/-- Number of occurrences of a single character in a string
(Python `s.count(c)` for a one-character needle). -/
def countChar (c : Char) (s : Str) : Nat :=
  s.countP (fun x => x = c)

/-- Python `s.count(p)` for a non-empty needle: number of non-overlapping
occurrences, scanning left to right. -/
def pyCountAux (p : Str) : Nat → Str → Nat
  | 0, _ => 0
  | _ + 1, [] => 0
  | fuel + 1, c :: t =>
    if p.isPrefixOf (c :: t) then 1 + pyCountAux p fuel ((c :: t).drop p.length)
    else pyCountAux p fuel t

def pyCount (p s : Str) : Nat := pyCountAux p s.length s

/-- Python `s.replace(p, q)` for a non-empty pattern: replace every
non-overlapping occurrence, scanning left to right. -/
def pyReplaceAux (p q : Str) : Nat → Str → Str
  | 0, s => s
  | _ + 1, [] => []
  | fuel + 1, c :: t =>
    if p.isPrefixOf (c :: t) then q ++ pyReplaceAux p q fuel ((c :: t).drop p.length)
    else c :: pyReplaceAux p q fuel t

def pyReplace (p q s : Str) : Str := pyReplaceAux p q s.length s

/-- Python `s.rfind(p)`: the largest index at which `p` occurs, if any. -/
def pyRFind (p s : Str) : Option Nat :=
  ((List.range (s.length + 1)).filter (fun i => p.isPrefixOf (s.drop i))).getLast?

/-- Python slice `s[a:b]` (for `0 ≤ a ≤ b`). -/
def pySlice (a b : Nat) (s : Str) : Str := (s.take b).drop a

/-- Decimal digit character for a value `0 ≤ d ≤ 9`. -/
def digitChar (d : Nat) : Char := Char.ofNat (48 + d)

/-- Python `str(n)` for a natural number, via fuel-based structural
recursion so that it reduces definitionally. -/
def natStrAux : Nat → Nat → Str
  | 0, _ => []
  | f + 1, n =>
    if n < 10 then [digitChar n]
    else natStrAux f (n / 10) ++ [digitChar (n % 10)]

def natStr (n : Nat) : Str := natStrAux (n + 1) n

/-- Numeric value of a decimal digit string (Python `int(digits)`). -/
def digitsVal (s : Str) : Nat :=
  s.foldl (fun a c => a * 10 + (c.toNat - 48)) 0

def isDigit (c : Char) : Bool := 48 ≤ c.toNat && c.toNat ≤ 57

/-- Depth change of one character of the brace-counting walk. -/
def dUpd (c : Char) (d : Nat) : Nat :=
  if c = obr then d + 1 else if c = cbr then d - 1 else d

/-- The brace-counting walk shared by the Region Matcher and the
Structural Editor (`while search_pos < len(content) and brace_count > 0`).
Returns the number of characters consumed and the final depth; `d` is the
initial depth and must be positive at entry. -/
def walkD : Str → Nat → Nat × Nat
  | [], d => (0, d)
  | c :: t, d =>
    if dUpd c d = 0 then (1, 0)
    else
      let r := walkD t (dUpd c d)
      (r.1 + 1, r.2)

/-- A position-indexed matcher: given the suffix of the document starting
at the current position, return the length of the match there, if any. -/
abbrev Matcher := Str → Option Nat

/-- `re.finditer`: scan left to right, skipping past each match
(non-overlapping), returning `(start, end)` spans. -/
def findIterAux (m : Matcher) : Nat → Nat → Str → List (Nat × Nat)
  | 0, _, _ => []
  | _ + 1, _, [] => []
  | fuel + 1, pos, c :: t =>
    match m (c :: t) with
    | some len => (pos, pos + len) :: findIterAux m fuel (pos + len) ((c :: t).drop len)
    | none => findIterAux m fuel (pos + 1) t

def findIter (m : Matcher) (s : Str) : List (Nat × Nat) :=
  findIterAux m s.length 0 s

/-- `re.search` returning only the start position of the first match. -/
def reSearchPos (m : Matcher) : Nat → Str → Option Nat
  | _, [] => none
  | pos, c :: t =>
    match m (c :: t) with
    | some _ => some pos
    | none => reSearchPos m (pos + 1) t

/-- `re.search` as a mere test (`if re.search(...)`). -/
def reSearchB (m : Matcher) : Str → Bool
  | [] => false
  | c :: t => (m (c :: t)).isSome || reSearchB m t

/-- Length of the leading run of `\s` characters. -/
def wsRun : Str → Nat
  | [] => 0
  | c :: t => if isWs c then wsRun t + 1 else 0

/-- Matcher for a regular expression of the shape `LIT\s*=\s*\{`. -/
def matchLitEqBrace (lit : Str) (s : Str) : Option Nat :=
  if lit.isPrefixOf s then
    let s1 := s.drop lit.length
    let w1 := wsRun s1
    let s2 := s1.drop w1
    match s2 with
    | c :: t =>
      if c = '=' then
        let w2 := wsRun t
        match t.drop w2 with
        | d :: _ => if d = obr then some (lit.length + w1 + 1 + w2 + 1) else none
        | [] => none
      else none
    | [] => none
  else none

/-- The quoted-bracketed form `["NAME"]` of a table marker. -/
def tableMarkerLit (name : Str) : Str :=
  '[' :: '"' :: name ++ ['"', ']']

/-- Matcher for the regular expression `\["NAME"\]\s*=\s*\{` used by the
Region Matcher for every named table marker. -/
def matchTableMarker (name : Str) (s : Str) : Option Nat :=
  matchLitEqBrace (tableMarkerLit name) s

/-- Python `s.split(sep)` for a single-character separator. -/
def pySplitChar (sep : Char) : Str → List Str
  | [] => [[]]
  | c :: t =>
    if c = sep then [] :: pySplitChar sep t
    else
      match pySplitChar sep t with
      | h :: r => (c :: h) :: r
      | [] => [[c]]

/-- Python `sep.join(parts)` for a single-character separator. -/
def joinChar (sep : Char) (l : List Str) : Str :=
  (l.intersperse [sep]).flatten


/-! ## Basic facts about the string primitives -/

theorem occursB_iff {p s : Str} : occursB p s = true ↔ p <:+: s := by
  induction s with
  | nil =>
    simp only [occursB, List.isEmpty_iff, List.infix_nil]
  | cons c t ih =>
    simp only [occursB, Bool.or_eq_true, List.infix_cons_iff]
    rw [ih, List.isPrefixOf_iff_prefix]

theorem occursB_eq_false {p s : Str} : occursB p s = false ↔ ¬ p <:+: s := by
  rw [← occursB_iff]; cases occursB p s <;> simp

theorem occursB_of_infix {p s s2 : Str} (h : occursB p s = true) (hs : s <:+: s2) :
    occursB p s2 = true :=
  occursB_iff.mpr ((occursB_iff.mp h).trans hs)

theorem not_occursB_of_infix {p s s2 : Str} (h : occursB p s2 = false) (hs : s <:+: s2) :
    occursB p s = false := by
  rw [occursB_eq_false] at h ⊢
  exact fun hc => h (hc.trans hs)

/-- Decomposing an occurrence in a concatenation: the pattern occurs in the
left part, occurs in the right part, or spans the boundary. -/
theorem infix_append_decomp {p a b : Str} (h : p <:+: a ++ b) :
    p <:+: a ∨ p <:+: b ∨
      ∃ k, 0 < k ∧ k < p.length ∧ p.take k <:+ a ∧ p.drop k <+: b := by
  obtain ⟨s, t, hst⟩ := h
  rcases List.append_eq_append_iff.mp hst with ⟨a2, ha, _⟩ | ⟨c2, hsp, hb⟩
  · left
    exact ⟨s, a2, by rw [ha]⟩
  · rcases List.append_eq_append_iff.mp hsp with ⟨a3, ha3, hp⟩ | ⟨s2, hs2, hc2⟩
    · by_cases hz : a3 = []
      · right; left
        subst hz
        simp only [List.nil_append] at hp
        exact ⟨[], t, by rw [hb, ← hp]; simp⟩
      · by_cases hz2 : c2 = []
        · left
          subst hz2
          rw [List.append_nil] at hp
          exact ⟨s, [], by rw [ha3, ← hp]; simp⟩
        · right; right
          refine ⟨a3.length, by simpa [List.length_pos] using hz, ?_, ?_, ?_⟩
          · have : p.length = a3.length + c2.length := by
              rw [hp]; simp
            have : 0 < c2.length := List.length_pos.mpr hz2
            omega
          · have : p.take a3.length = a3 := by
              rw [hp, List.take_left]
            rw [this, ha3]
            exact List.suffix_append _ _
          · have : p.drop a3.length = c2 := by
              rw [hp, List.drop_left]
            rw [this, hb]
            exact List.prefix_append _ _
    · right; left
      exact ⟨s2, t, by rw [hb, hc2, List.append_assoc]⟩

theorem prefix_short {p a b : Str} (h : p <+: a ++ b) (hl : p.length ≤ a.length) : p <+: a :=
  (List.isPrefix_append_of_length hl).mp h

theorem suffix_short {p a b : Str} (h : p <:+ a ++ b) (hl : p.length ≤ b.length) : p <:+ b := by
  obtain ⟨s, hs⟩ := h
  rcases List.append_eq_append_iff.mp hs with ⟨a2, _, hp⟩ | ⟨c2, _, hb⟩
  · have ha2 : a2 = [] := by
      have h1 : p.length = a2.length + b.length := by rw [hp]; simp
      have : a2.length = 0 := by omega
      exact List.length_eq_zero.mp this
    subst ha2
    simp only [List.nil_append] at hp
    exact hp ▸ List.suffix_rfl
  · exact ⟨c2, hb.symm⟩


/-! ## The brace-counting walk -/

/-- Strings with no brace characters. -/
def braceFree (l : Str) : Prop := ∀ c ∈ l, c ≠ obr ∧ c ≠ cbr

/-- Balanced brace strings, described grammatically: a sequence of
non-brace characters and fully bracketed balanced groups. -/
inductive Bal : Str → Prop
  | nil : Bal []
  | ch (c : Char) (t : Str) : c ≠ obr → c ≠ cbr → Bal t → Bal (c :: t)
  | wrap (x t : Str) : Bal x → Bal t → Bal (obr :: (x ++ cbr :: t))

theorem Bal.of_braceFree {l : Str} (h : braceFree l) : Bal l := by
  induction l with
  | nil => exact Bal.nil
  | cons c t ih =>
    exact Bal.ch c t (h c (by simp)).1 (h c (by simp)).2
      (ih (fun x hx => h x (by simp [hx])))

/-- Step lemmas for the walk. -/
theorem dUpd_open (d : Nat) : dUpd obr d = d + 1 := by simp [dUpd]

theorem dUpd_close (d : Nat) : dUpd cbr d = d - 1 := by
  have h : ¬ (cbr = obr) := by decide
  simp [dUpd, h]

theorem dUpd_other {c : Char} (d : Nat) (h1 : c ≠ obr) (h2 : c ≠ cbr) : dUpd c d = d := by
  simp [dUpd, h1, h2]

theorem walkD_cons_open (t : Str) (d : Nat) :
    walkD (obr :: t) d = ((walkD t (d + 1)).1 + 1, (walkD t (d + 1)).2) := by
  simp only [walkD, dUpd_open]
  rw [if_neg (by omega)]

theorem walkD_cons_close (t : Str) (d : Nat) (hd : 2 ≤ d) :
    walkD (cbr :: t) d = ((walkD t (d - 1)).1 + 1, (walkD t (d - 1)).2) := by
  simp only [walkD, dUpd_close]
  rw [if_neg (by omega)]

theorem walkD_cons_close_one (t : Str) : walkD (cbr :: t) 1 = (1, 0) := by
  simp only [walkD, dUpd_close]
  simp

theorem walkD_cons_other {c : Char} (t : Str) (d : Nat) (h1 : c ≠ obr) (h2 : c ≠ cbr)
    (hd : 0 < d) : walkD (c :: t) d = ((walkD t d).1 + 1, (walkD t d).2) := by
  simp only [walkD, dUpd_other d h1 h2]
  rw [if_neg (by omega)]

theorem countChar_cons (c x : Char) (l : Str) :
    countChar c (x :: l) = countChar c l + (if x = c then 1 else 0) := by
  simp only [countChar, List.countP_cons]
  by_cases h : x = c <;> simp [h]

/-- Walking over a balanced block never terminates inside it and leaves
the depth unchanged. -/
theorem walkD_bal {x : Str} (hx : Bal x) :
    ∀ (y : Str) (d : Nat), 0 < d →
      walkD (x ++ y) d = ((walkD y d).1 + x.length, (walkD y d).2) := by
  induction hx with
  | nil => intro y d _; simp
  | ch c t hc1 hc2 _ ih =>
    intro y d hd
    rw [List.cons_append, walkD_cons_other (t ++ y) d hc1 hc2 hd, ih y d hd]
    simp only [Prod.mk.injEq, List.length_cons]
    exact ⟨by omega, trivial⟩
  | wrap x t hx ht ihx iht =>
    intro y d hd
    rw [List.cons_append, List.append_assoc, walkD_cons_open, List.cons_append]
    have h2 := ihx (cbr :: (t ++ y)) (d + 1) (by omega)
    rw [h2]
    have h3 : walkD (cbr :: (t ++ y)) (d + 1) = ((walkD (t ++ y) d).1 + 1, (walkD (t ++ y) d).2) := by
      rw [walkD_cons_close (t ++ y) (d + 1) (by omega)]
      simp
    rw [h3, iht y d hd]
    simp only [Prod.mk.injEq, List.length_cons, List.length_append]
    exact ⟨by omega, trivial⟩

/-- Walking from depth 1: a balanced block followed by a closing brace is
consumed exactly, ending at depth 0. -/
theorem walkD_closes {x : Str} (hx : Bal x) (y : Str) :
    walkD (x ++ cbr :: y) 1 = (x.length + 1, 0) := by
  rw [walkD_bal hx (cbr :: y) 1 (by omega), walkD_cons_close_one]
  simp [Nat.add_comm]

/-- If the walk never returns to depth 0, it consumes the whole text. -/
theorem walkD_consumes_all {s : Str} : ∀ {d : Nat}, (walkD s d).2 ≠ 0 → (walkD s d).1 = s.length := by
  induction s with
  | nil => intro d _; simp [walkD]
  | cons c t ih =>
    intro d hne
    simp only [walkD] at hne ⊢
    by_cases h0 : dUpd c d = 0
    · rw [if_pos h0] at hne; simp at hne
    · rw [if_neg h0] at hne ⊢
      have := @ih (dUpd c d) (by simpa using hne)
      simp [this]

/-- If the walk terminates at depth 0 starting from depth `d > 0`, the
consumed text minus its final closing brace contains exactly `d - 1` more
closing braces than opening braces; at `d = 1` the span is balanced. -/
theorem walkD_balance {s : Str} : ∀ {d : Nat}, 0 < d → (walkD s d).2 = 0 →
    countChar obr (s.take ((walkD s d).1 - 1)) + d
      = countChar cbr (s.take ((walkD s d).1 - 1)) + 1 := by
  induction s with
  | nil => intro d hd h0; simp [walkD] at h0; omega
  | cons c t ih =>
    intro d hd h0
    simp only [walkD] at h0 ⊢
    by_cases hz : dUpd c d = 0
    · rw [if_pos hz] at h0 ⊢
      simp only [List.take_zero]
      have hc : d = 1 := by
        by_cases h1 : c = obr
        · rw [h1, dUpd_open] at hz; omega
        · by_cases h2 : c = cbr
          · rw [h2, dUpd_close] at hz; omega
          · rw [dUpd_other d h1 h2] at hz; omega
      simp [countChar, hc]
    · rw [if_neg hz] at h0 ⊢
      simp only at h0 ⊢
      have hm : 0 < (walkD t (dUpd c d)).1 := by
        by_contra hm
        have h1 : (walkD t (dUpd c d)).1 = 0 := by omega
        have h2 : (walkD t (dUpd c d)).2 ≠ 0 := by
          cases t with
          | nil => simp [walkD]; omega
          | cons c2 t2 =>
            simp only [walkD] at h1
            by_cases hz2 : dUpd c2 (dUpd c d) = 0
            · rw [if_pos hz2] at h1; simp at h1
            · rw [if_neg hz2] at h1; simp at h1
        exact h2 h0
      have htake : (c :: t).take ((walkD t (dUpd c d)).1 + 1 - 1)
          = c :: t.take ((walkD t (dUpd c d)).1 - 1) := by
        have he : (walkD t (dUpd c d)).1 + 1 - 1 = ((walkD t (dUpd c d)).1 - 1) + 1 := by omega
        rw [he, List.take_succ_cons]
      rw [htake]
      have hdpos : 0 < dUpd c d := by omega
      have ihv := @ih (dUpd c d) hdpos h0
      rw [countChar_cons, countChar_cons]
      by_cases h1 : c = obr
      · rw [h1, dUpd_open] at ihv
        rw [h1, dUpd_open]
        have v1 : (if obr = obr then (1 : Nat) else 0) = 1 := by decide
        have v2 : (if obr = cbr then (1 : Nat) else 0) = 0 := by decide
        rw [v1, v2]
        omega
      · by_cases h2 : c = cbr
        · rw [h2, dUpd_close] at ihv
          have hdd : 2 ≤ d := by
            by_contra hlt
            have hd1 : d = 1 := by omega
            rw [h2, hd1, dUpd_close] at hz
            simp at hz
          rw [h2, dUpd_close]
          have v1 : (if cbr = obr then (1 : Nat) else 0) = 0 := by decide
          have v2 : (if cbr = cbr then (1 : Nat) else 0) = 1 := by decide
          rw [v1, v2]
          omega
        · rw [dUpd_other d h1 h2] at ihv
          rw [dUpd_other d h1 h2, if_neg h1, if_neg h2]
          omega

/-! ## Decimal digit strings -/

theorem digitChar_isDigit {d : Nat} (h : d < 10) : isDigit (digitChar d) = true := by
  interval_cases d <;> decide

theorem natStrAux_digits : ∀ (fuel n : Nat), n < fuel →
    ∀ c ∈ natStrAux fuel n, isDigit c = true := by
  intro fuel
  induction fuel with
  | zero => intro n h; omega
  | succ f ih =>
    intro n _ c hc
    simp only [natStrAux] at hc
    by_cases h10 : n < 10
    · rw [if_pos h10] at hc
      simp at hc
      rw [hc]
      exact digitChar_isDigit h10
    · rw [if_neg h10] at hc
      rcases List.mem_append.mp hc with h1 | h2
      · exact ih (n / 10) (by omega) c h1
      · simp at h2
        rw [h2]
        exact digitChar_isDigit (by omega)

theorem natStr_digits {n : Nat} : ∀ c ∈ natStr n, isDigit c = true :=
  natStrAux_digits (n + 1) n (by omega)

theorem natStrAux_ne_nil : ∀ (fuel n : Nat), n < fuel → natStrAux fuel n ≠ [] := by
  intro fuel
  cases fuel with
  | zero => intro n h; omega
  | succ f =>
    intro n _
    simp only [natStrAux]
    by_cases h10 : n < 10
    · rw [if_pos h10]; simp
    · rw [if_neg h10]; simp

theorem natStr_ne_nil {n : Nat} : natStr n ≠ [] :=
  natStrAux_ne_nil (n + 1) n (by omega)

theorem natStrAux_val : ∀ (fuel n a : Nat), n < fuel →
    (natStrAux fuel n).foldl (fun a c => a * 10 + (c.toNat - 48)) a
      = a * 10 ^ (natStrAux fuel n).length + n := by
  intro fuel
  induction fuel with
  | zero => intro n a h; omega
  | succ f ih =>
    intro n a _
    simp only [natStrAux]
    by_cases h10 : n < 10
    · rw [if_pos h10]
      have hc : (digitChar n).toNat = 48 + n := by
        interval_cases n <;> decide
      simp [List.foldl, hc]
    · rw [if_neg h10]
      rw [List.foldl_append]
      rw [ih (n / 10) a (by omega)]
      have hc : (digitChar (n % 10)).toNat = 48 + n % 10 := by
        have : n % 10 < 10 := Nat.mod_lt n (by omega)
        interval_cases h : n % 10 <;> simp [h] <;> decide
      simp [List.foldl, hc]
      rw [Nat.pow_succ, ← Nat.mul_assoc]
      have hdm := Nat.div_add_mod n 10
      set B := a * 10 ^ (natStrAux f (n / 10)).length
      omega

theorem digitsVal_natStr (n : Nat) : digitsVal (natStr n) = n := by
  have := natStrAux_val (n + 1) n 0 (by omega)
  simpa [digitsVal, natStr] using this

theorem takeWhile_all_not {p : Char → Bool} {a : Str} {c : Char} (r : Str)
    (ha : ∀ x ∈ a, p x = true) (hc : p c = false) :
    (a ++ c :: r).takeWhile p = a := by
  induction a with
  | nil => simp [List.takeWhile, hc]
  | cons x t ih =>
    simp only [List.cons_append, List.takeWhile_cons]
    rw [ha x (by simp)]
    simp [ih (fun y hy => ha y (by simp [hy]))]

theorem not_mem_of_digits {s : Str} {x : Char} (hs : ∀ c ∈ s, isDigit c = true)
    (hx : isDigit x = false) : x ∉ s := by
  intro hmem
  rw [hs x hmem] at hx
  simp at hx

/-! ## Scanner lemmas -/

/-- If the matcher fails on every suffix, the scan finds nothing. -/
theorem findIterAux_nil {m : Matcher} (hm : ∀ t : Str, t <:+ s → m t = none) :
    ∀ (fuel pos : Nat), findIterAux m fuel pos s = [] := by
  induction s with
  | nil => intro fuel pos; cases fuel <;> simp [findIterAux]
  | cons c t ih =>
    intro fuel pos
    cases fuel with
    | zero => simp [findIterAux]
    | succ f =>
      simp only [findIterAux]
      rw [hm (c :: t) List.suffix_rfl]
      exact ih (fun u hu => hm u (hu.trans (List.suffix_cons c t))) f (pos + 1)

theorem findIter_nil {m : Matcher} {s : Str} (hm : ∀ t : Str, t <:+ s → m t = none) :
    findIter m s = [] :=
  findIterAux_nil hm s.length 0

/-- Scanning through a region with no match start. -/
theorem findIterAux_skip {m : Matcher} :
    ∀ (X R : Str) (pos fuel : Nat),
      (∀ j < X.length, m ((X ++ R).drop j) = none) →
      findIterAux m (X.length + fuel) pos (X ++ R) = findIterAux m fuel (pos + X.length) R := by
  intro X
  induction X with
  | nil => intro R pos fuel _; simp
  | cons c X2 ih =>
    intro R pos fuel hnone
    have h0 : m (c :: (X2 ++ R)) = none := by
      have := hnone 0 (by simp)
      simpa using this
    simp only [List.cons_append, List.length_cons]
    have harith : X2.length + 1 + fuel = (X2.length + fuel) + 1 := by omega
    rw [harith]
    simp only [findIterAux, h0]
    rw [ih R (pos + 1) fuel (fun j hj => by
      have := hnone (j + 1) (by simp; omega)
      simpa using this)]
    congr 1
    omega

/-- A successful match at some non-empty suffix makes the search succeed. -/
theorem reSearchB_true {m : Matcher} {s t : Str} (h : t <:+ s) (hne : t ≠ [])
    (hm : (m t).isSome = true) : reSearchB m s = true := by
  induction s with
  | nil => 
    rw [List.suffix_nil] at h
    exact absurd h hne
  | cons c s2 ih =>
    rcases List.suffix_cons_iff.mp h with h1 | h2
    · rw [h1] at hm
      simp [reSearchB, hm]
    · simp only [reSearchB, Bool.or_eq_true]
      exact Or.inr (ih h2)

/-- If no suffix matches, the search fails. -/
theorem reSearchB_false {m : Matcher} {s : Str} (hm : ∀ t : Str, t <:+ s → m t = none) :
    reSearchB m s = false := by
  induction s with
  | nil => simp [reSearchB]
  | cons c s2 ih =>
    simp only [reSearchB, Bool.or_eq_false_iff]
    constructor
    · rw [hm (c :: s2) List.suffix_rfl]; rfl
    · exact ih (fun u hu => hm u (hu.trans (List.suffix_cons c s2)))

/-- Any matcher that demands a literal prefix fails everywhere when that
literal does not occur in the text. -/
theorem matcher_none_of_lit {m : Matcher} {lit s : Str}
    (hlit : ∀ t : Str, (m t).isSome → lit <+: t)
    (h : occursB lit s = false) : ∀ t : Str, t <:+ s → m t = none := by
  intro t ht
  by_cases hmt : (m t).isSome
  · exfalso
    have h1 : lit <+: t := hlit t hmt
    have h2 : lit <:+: s := h1.isInfix.trans ht.isInfix
    rw [occursB_eq_false] at h
    exact h h2
  · simpa using hmt

theorem matchLitEqBrace_isSome_lit {lit t : Str} (h : (matchLitEqBrace lit t).isSome) :
    lit <+: t := by
  by_cases hp : lit.isPrefixOf t
  · exact List.isPrefixOf_iff_prefix.mp hp
  · exfalso
    simp only [matchLitEqBrace, hp] at h
    simp at h

theorem matchTableMarker_isSome_lit {name t : Str} (h : (matchTableMarker name t).isSome) :
    tableMarkerLit name <+: t :=
  matchLitEqBrace_isSome_lit h

/-! ## Embedding of `TSMLuaWriter` (tsm_scraper/lua_writer.py)

String literals of the source.  Brace characters inside Lean string
literals are written with their `\x7b` / `\x7d` escapes. -/

def ascLit : Str := ("AscensionTSMDB").toList

def retailLit : Str := ("TradeSkillMasterDB").toList

def retailNilLit : Str := ("TradeSkillMasterDB = nil").toList

def gtsLit : Str := ("[\"groupTreeStatus\"]").toList

def itemsNameL : Str := ("items").toList

def groupsNameL : Str := ("groups").toList

def collapsedNameL : Str := ("groupTreeCollapsedStatus").toList

def operationsNameL : Str := ("operations").toList

def defaultNameL : Str := ("Default").toList

def gtsNameL : Str := ("groupTreeStatus").toList

def trueCommaLit : Str := ("true,").toList

def eqTrueLit : Str := ("= true").toList

def eqFalseLit : Str := ("= false").toList

def eqBraceLit : Str := ("= \x7b").toList

def collapsedLit : Str := tableMarkerLit collapsedNameL

/-- Schema variants recognised by the Format Detector. -/
inductive TsmFormat where
  | ascension
  | retail
  | unknown
deriving DecidableEq, Repr

/-- `detect_tsm_format` (lua_writer.py lines 22-35). -/
def detect_tsm_format (content : Str) : TsmFormat :=
  if occursB ascLit content then TsmFormat.ascension
  else if occursB retailLit content && !(occursB retailNilLit content) then TsmFormat.retail
  else TsmFormat.unknown

/-- The backwards look for `["groupTreeStatus"]` within a 500-character
window that decides whether a candidate match lies inside the
`groupTreeStatus` decoy container (the common prologue of
`_find_real_items_table`, `_find_real_groups_table` and
`_ensure_items_table_exists_ascension`). -/
def lookback_inside_gts (content : Str) (ms : Nat) : Bool :=
  let preceding := pySlice (ms - 500) ms content
  if occursB gtsLit preceding then
    match pyRFind gtsLit preceding with
    | some gp =>
      let segment := preceding.drop gp
      decide (countChar cbr segment < countChar obr segment)
    | none => false
  else false

/-- `_find_real_items_table` (lines 471-509): first `["items"]` marker that
is not inside `groupTreeStatus` and whose contents do not look like
boolean flags.  Returns the `(start, end)` span of the marker match. -/
def find_real_items_table_go (content : Str) : List (Nat × Nat) → Option (Nat × Nat)
  | [] => none
  | (ms, me) :: rest =>
    if lookback_inside_gts content ms then find_real_items_table_go content rest
    else
      let w := walkD (content.drop me) 1
      let searchPos := me + w.1
      let tableContent := pySlice me (searchPos - 1) content
      if occursB trueCommaLit tableContent || occursB eqTrueLit tableContent then
        find_real_items_table_go content rest
      else some (ms, me)

def find_real_items_table (content : Str) : Option (Nat × Nat) :=
  find_real_items_table_go content (findIter (matchTableMarker itemsNameL) content)

/-- `_find_real_groups_table` (lines 99-136).  Returns
`(start, end, search_pos)` where `search_pos` is the position one past the
closing brace of the table. -/
def find_real_groups_table_go (content : Str) : List (Nat × Nat) → Option (Nat × Nat × Nat)
  | [] => none
  | (ms, me) :: rest =>
    if lookback_inside_gts content ms then find_real_groups_table_go content rest
    else
      let w := walkD (content.drop me) 1
      let searchPos := me + w.1
      if w.2 = 0 then
        let tableContent := pySlice me (searchPos - 1) content
        if occursB trueCommaLit tableContent || occursB eqTrueLit tableContent then
          find_real_groups_table_go content rest
        else some (ms, me, searchPos)
      else find_real_groups_table_go content rest

def find_real_groups_table (content : Str) : Option (Nat × Nat × Nat) :=
  find_real_groups_table_go content (findIter (matchTableMarker groupsNameL) content)

/-- `re.search` returning the `(start, end)` span of the first match. -/
def reSearchSpan (m : Matcher) : Nat → Str → Option (Nat × Nat)
  | _, [] => none
  | pos, c :: t =>
    match m (c :: t) with
    | some len => some (pos, pos + len)
    | none => reSearchSpan m (pos + 1) t

/-- The four-character whitespace class `' \t\r\n'` used by the comma-skip
after the groups table (line 434). -/
def isWs4 (c : Char) : Bool := c = ' ' || c = '\t' || c = '\r' || c = '\n'

def wsRun4 : Str → Nat
  | [] => 0
  | c :: t => if isWs4 c then wsRun4 t + 1 else 0

/-- Skip whitespace and then one optional comma (lines 433-437). -/
def skipWsComma (content : Str) (p : Nat) : Nat :=
  let q := p + wsRun4 (content.drop p)
  match content.drop q with
  | c :: _ => if c = ',' then q + 1 else q
  | [] => q

/-- `content.rfind('\n', 0, p) + 1` (0 when absent): start of the line
containing position `p`. -/
def lineStartBefore (content : Str) (p : Nat) : Nat :=
  match pyRFind ['\n'] (content.take p) with
  | some i => i + 1
  | none => 0

def items_section_lit : Str :=
  ("\r\n\t\t\t[\"items\"] = \x7b\r\n\t\t\t\x7d,\r\n\t\t\t[\"groupTreeCollapsedStatus\"] = \x7b\r\n\t\t\t\x7d,\r\n\t\t\t[\"isBankui\"] = false,\r\n\t\t\t[\"moveImportedItems\"] = true,").toList

def new_tables_lit (indent : Str) : Str :=
  ("[\"groups\"] = \x7b\r\n").toList ++ indent ++ ("\x7d,\r\n").toList ++ indent
    ++ ("[\"items\"] = \x7b\r\n").toList ++ indent ++ ("\x7d,\r\n").toList ++ indent
    ++ ("[\"groupTreeCollapsedStatus\"] = \x7b\r\n").toList ++ indent ++ ("\x7d,\r\n").toList
    ++ indent ++ ("[\"isBankui\"] = false,\r\n").toList
    ++ indent ++ ("[\"moveImportedItems\"] = true,\r\n").toList ++ indent

def default_insert_lit : Str :=
  ("\r\n\t\t\t[\"groups\"] = \x7b\r\n\t\t\t\x7d,\r\n\t\t\t[\"items\"] = \x7b\r\n\t\t\t\x7d,").toList

/-- First loop of `_ensure_items_table_exists_ascension` (lines 371-386):
is there any `["items"]` marker not inside `groupTreeStatus`? -/
def items_exists_go (content : Str) : List (Nat × Nat) → Bool
  | [] => false
  | (ms, _) :: rest =>
    if lookback_inside_gts content ms then items_exists_go content rest
    else true

/-- Second loop of `_ensure_items_table_exists_ascension` (lines 391-428):
locate the real groups table and return the position one past its closing
brace (`real_groups_end_pos = search_pos`, line 427).  Unlike
`_find_real_groups_table` this loop does not test `brace_count == 0`. -/
def groups_end_items_go (content : Str) : List (Nat × Nat) → Option Nat
  | [] => none
  | (ms, me) :: rest =>
    if lookback_inside_gts content ms then groups_end_items_go content rest
    else
      let w := walkD (content.drop me) 1
      let searchPos := me + w.1
      let tableContent := pySlice me (searchPos - 1) content
      if occursB trueCommaLit tableContent || occursB eqTrueLit tableContent then
        groups_end_items_go content rest
      else some searchPos

/-- `_ensure_items_table_exists_ascension` (lines 350-469). -/
def ensure_items_table_exists_ascension (content : Str) : Str :=
  if items_exists_go content (findIter (matchTableMarker itemsNameL) content) then content
  else
    match groups_end_items_go content (findIter (matchTableMarker groupsNameL) content) with
    | some endPos =>
      let ip := skipWsComma content endPos
      content.take ip ++ items_section_lit ++ content.drop ip
    | none =>
      match reSearchSpan (matchTableMarker operationsNameL) 0 content with
      | some (opStart, _) =>
        let ls := lineStartBefore content opStart
        let ind0 := pySlice ls opStart content
        let ind := if ind0.all isWs then ind0 else ['\t', '\t', '\t']
        content.take opStart ++ new_tables_lit ind ++ content.drop opStart
      | none =>
        match reSearchSpan (matchTableMarker defaultNameL) 0 content with
        | some (_, dEnd) =>
          content.take dEnd ++ default_insert_lit ++ content.drop dEnd
        | none => content

def reset_collapsed_lit : Str :=
  ("[\"groupTreeCollapsedStatus\"] = \x7b\x7d").toList

/-- One replacement step of `cleanup_ui_state` (lines 565-579). -/
def cleanup_step (content : Str) (mm : Nat × Nat) : Str :=
  let w := walkD (content.drop mm.2) 1
  if w.2 = 0 then content.take mm.1 ++ reset_collapsed_lit ++ content.drop (mm.2 + w.1)
  else content

/-- `cleanup_ui_state` (lines 552-581): reset every
`groupTreeCollapsedStatus` table to an empty table, processing matches
from the last to the first. -/
def cleanup_ui_state (content : Str) : Str :=
  ((findIter (matchTableMarker collapsedNameL) content).reverse).foldl cleanup_step content

/-! ## `add_items` (lines 648-718) -/

structure AddResult where
  added : Nat
  skipped : Nat
  errors : List Str
deriving Repr, DecidableEq

def itemKeyLit (idStr : Str) : Str :=
  ("[\"item:").toList ++ idStr ++ (":0:0:0:0:0:0\"]").toList

/-- Matcher for `\["item:ID:0:0:0:0:0:0"\]\s*=` (the existence check of
line 696). -/
def matchItemKeyEq (idStr : Str) (s : Str) : Option Nat :=
  let lit := itemKeyLit idStr
  if lit.isPrefixOf s then
    let r := s.drop lit.length
    let w := wsRun r
    match r.drop w with
    | c :: _ => if c = '=' then some (lit.length + w + 1) else none
    | [] => none
  else none

def tab4 : Str := ['\t', '\t', '\t', '\t']

/-- The serialized entry `{indent}["item:ID:0:0:0:0:0:0"] = "GROUP",`. -/
def itemEntryLine (indent idStr gp : Str) : Str :=
  indent ++ itemKeyLit idStr ++ (" = \"").toList ++ gp ++ ("\",").toList

/-- The per-identifier loop of `add_items` (lines 688-701): returns
`(added, skipped, new_entries)`. -/
def add_items_loop (content indent : Str) : List (Nat × Str) → Nat × Nat × List Str
  | [] => (0, 0, [])
  | (id, gp) :: rest =>
    let r := add_items_loop content indent rest
    if reSearchB (matchItemKeyEq (natStr id)) content then (r.1, r.2.1 + 1, r.2.2)
    else (r.1 + 1, r.2.1, itemEntryLine indent (natStr id) gp :: r.2.2)

/-- `add_items`: the result record together with the buffer written to
disk (`none` when the operation does not write). -/
def add_items (items : List (Nat × Str)) (content : Str) : AddResult × Option Str :=
  match detect_tsm_format content with
  | TsmFormat.ascension =>
    let content1 := ensure_items_table_exists_ascension content
    match find_real_items_table content1 with
    | none =>
      ({added := 0, skipped := 0,
        errors := [("Could not find or create real ['items'] table.").toList]}, none)
    | some (_, me) =>
      let r := add_items_loop content1 tab4 items
      match r.2.2 with
      | [] => ({added := r.1, skipped := r.2.1, errors := []}, none)
      | es =>
        let newBlock := '\n' :: joinChar '\n' es
        let content2 := content1.take me ++ newBlock ++ content1.drop me
        ({added := r.1, skipped := r.2.1, errors := []}, some (cleanup_ui_state content2))
  | _ =>
    ({added := 0, skipped := 0,
      errors := [("Unsupported format for item addition").toList]}, none)

/-! ## `remove_items` (lines 720-766) -/

structure RemoveResult where
  removed : Nat
  notFound : Nat
  errors : List Str
deriving Repr, DecidableEq

def itemPreLit : Str := ("[\"item:").toList

/-- Matcher for `\["item:(\d+):` anchored at the current position,
returning the decoded identifier. -/
def matchLineItemId (s : Str) : Option Nat :=
  if itemPreLit.isPrefixOf s then
    let r := s.drop itemPreLit.length
    let ds := r.takeWhile isDigit
    if ds.isEmpty then none
    else
      match r.drop ds.length with
      | c :: _ => if c = ':' then some (digitsVal ds) else none
      | [] => none
  else none

def reSearchVal (m : Str → Option Nat) : Str → Option Nat
  | [] => none
  | c :: t =>
    match m (c :: t) with
    | some v => some v
    | none => reSearchVal m t

/-- `re.search(r'\["item:(\d+):', line)` followed by `int(match.group(1))`. -/
def lineItemId (line : Str) : Option Nat := reSearchVal matchLineItemId line

/-- The line scan of `remove_items` (lines 744-751): returns
`(removed, remaining identifiers, kept lines)`. -/
def remove_items_go (S : Finset Nat) : List Str → Nat × Finset Nat × List Str
  | [] => (0, S, [])
  | l :: ls =>
    match lineItemId l with
    | some id =>
      if id ∈ S then
        let r := remove_items_go (S.erase id) ls
        (r.1 + 1, r.2.1, r.2.2)
      else
        let r := remove_items_go S ls
        (r.1, r.2.1, l :: r.2.2)
    | none =>
      let r := remove_items_go S ls
      (r.1, r.2.1, l :: r.2.2)

def remove_items (ids : List Nat) (content : Str) : RemoveResult × Option Str :=
  let S := ids.toFinset
  let lines := pySplitChar '\n' content
  let r := remove_items_go S lines
  let result : RemoveResult := {removed := r.1, notFound := r.2.1.card, errors := []}
  if 0 < r.1 then (result, some (joinChar '\n' r.2.2)) else (result, none)

/-! ## `rename_group` (lines 768-826) -/

structure RenameResult where
  renamed : Bool
  itemsUpdated : Nat
  groupsUpdated : Nat
  errors : List Str
deriving Repr, DecidableEq

/-- `"PATH"`: a group path as an exact quoted value. -/
def quoteExact (p : Str) : Str := '"' :: p ++ ['"']

/-- `"PATH` followed by the separator: a quoted value having the path as
a proper prefix. -/
def quoteSub (p : Str) : Str := '"' :: p ++ ['`']

def rename_group (old new : Str) (content : Str) : RenameResult × Option Str :=
  let oldCount := pyCount (quoteExact old) content
  let oldSubCount := pyCount (quoteSub old) content
  if oldCount = 0 ∧ oldSubCount = 0 then
    ({renamed := false, itemsUpdated := 0, groupsUpdated := 0,
      errors := [("Group not found").toList]}, none)
  else
    let c1 := pyReplace (quoteExact old) (quoteExact new) content
    let c2 := pyReplace (quoteSub old) (quoteSub new) c1
    ({renamed := true, itemsUpdated := oldCount, groupsUpdated := oldCount + oldSubCount,
      errors := []}, some c2)

/-! ## `delete_group` (lines 828-953) -/

structure DeleteResult where
  deleted : Bool
  itemsRemoved : Nat
  subgroupsRemoved : Nat
  uiRefsRemoved : Nat
  errors : List Str
deriving Repr, DecidableEq

/-- `re.match(rf'\s*\["{path}("\]|`)', line) and '= {' in line`
(line 859): the start of the group's own region or of a descendant
region. -/
def delGroupStart (path line : Str) : Bool :=
  (let r := line.drop (wsRun line)
   (('[' :: '"' :: path ++ ['"', ']']).isPrefixOf r
     || ('[' :: '"' :: path ++ ['`']).isPrefixOf r))
  && occursB eqBraceLit line

/-- `re.match(rf'\s*\["{path}`[^"]+"\]\s*=\s*\{{', line)` (line 867):
the start of a descendant region, under the stricter pattern. -/
def delSubgroupStart (path line : Str) : Bool :=
  let r := line.drop (wsRun line)
  let lit := '[' :: '"' :: path ++ ['`']
  if lit.isPrefixOf r then
    let r2 := r.drop lit.length
    let mid := r2.takeWhile (fun c => c ≠ '"')
    if mid.isEmpty then false
    else
      match r2.drop mid.length with
      | '"' :: ']' :: r4 =>
        let w1 := wsRun r4
        (match r4.drop w1 with
         | '=' :: r5 =>
           let w2 := wsRun r5
           (match r5.drop w2 with
            | c :: _ => c = obr
            | [] => false)
         | _ => false)
      | _ => false
  else false

/-- Opening-minus-closing brace count of one line (may be negative). -/
def lineDelta (line : Str) : Int :=
  (countChar obr line : Int) - (countChar cbr line : Int)

/-- First pass of `delete_group` (lines 851-880): line-oriented removal of
the group region and descendant regions, driven by a skip-until-closed
state machine.  Returns `(kept lines, deleted, subgroups_removed)`. -/
def delete_pass1 (path : Str) : List Str → Bool → Int → List Str × Bool × Nat
  | [], _, _ => ([], false, 0)
  | l :: ls, skp, depth =>
    if delGroupStart path l then
      let r := delete_pass1 path ls true (lineDelta l)
      (r.1, true, r.2.2)
    else if delSubgroupStart path l then
      let r := delete_pass1 path ls true (lineDelta l)
      (r.1, r.2.1, r.2.2 + 1)
    else if skp then
      if depth + lineDelta l ≤ 0 then
        let r := delete_pass1 path ls false 0
        (r.1, r.2.1, r.2.2)
      else
        let r := delete_pass1 path ls true (depth + lineDelta l)
        (r.1, r.2.1, r.2.2)
    else
      let r := delete_pass1 path ls false depth
      (l :: r.1, r.2.1, r.2.2)

/-- Matcher for `=\s*"{path}(`.*)?"\s*,?` at the current position
(line 890); the trailing `\s*,?` always matches and is omitted. -/
def matchAssign (path : Str) (s : Str) : Bool :=
  match s with
  | '=' :: r =>
    let w := wsRun r
    (match r.drop w with
     | '"' :: r2 =>
       if path.isPrefixOf r2 then
         (match r2.drop path.length with
          | '"' :: _ => true
          | '`' :: r4 => occursB ['"'] r4
          | _ => false)
       else false
     | _ => false)
  | _ => false

def scanAny (pred : Str → Bool) : Str → Bool
  | [] => false
  | c :: t => pred (c :: t) || scanAny pred t

/-- Second pass (lines 885-896): item assignments under the group.
Returns `(kept lines, items_found, items_removed)`. -/
def delete_pass2 (path : Str) (deleteItems : Bool) : List Str → List Str × Nat × Nat
  | [] => ([], 0, 0)
  | l :: ls =>
    let r := delete_pass2 path deleteItems ls
    if scanAny (matchAssign path) l then
      if deleteItems then (r.1, r.2.1 + 1, r.2.2 + 1)
      else (l :: r.1, r.2.1 + 1, r.2.2)
    else (l :: r.1, r.2.1, r.2.2)

/-- The per-line test of the third pass (lines 904-922). -/
def uiRefLine (path l : Str) : Bool :=
  let boolv := occursB eqTrueLit l || occursB eqFalseLit l
  if (occursB (quoteExact path) l || occursB (quoteSub path) l) && boolv then true
  else (occursB (path ++ ['"', ']']) l || occursB (path ++ ['`']) l) && boolv

/-- Third pass (lines 901-923): UI-state references.  Returns
`(kept lines, ui_refs_removed)`. -/
def delete_pass3 (path : Str) : List Str → List Str × Nat
  | [] => ([], 0)
  | l :: ls =>
    let r := delete_pass3 path ls
    if uiRefLine path l then (r.1, r.2 + 1)
    else (l :: r.1, r.2)

def nl3Lit : Str := ['\n', '\n', '\n']

def nl2Lit : Str := ['\n', '\n']

/-- `while '\n\n\n' in new_content: replace('\n\n\n', '\n\n')`
(lines 928-929). -/
def collapseBlankAux : Nat → Str → Str
  | 0, s => s
  | f + 1, s =>
    if occursB nl3Lit s then collapseBlankAux f (pyReplace nl3Lit nl2Lit s) else s

def collapseBlank (s : Str) : Str := collapseBlankAux s.length s

/-- Largest index at which `"\n\n"` starts inside a whitespace run. -/
def lastNlNl (w : Str) : Nat := (pyRFind nl2Lit w).getD 0

/-- `re.sub(r'(\{\s*)\n\n+(\s*\})', ...)` and its `[`-variant
(lines 933-935): at an opening brace followed by a whitespace run that
contains a blank line and then `close`, keep the greedy head of the run,
one newline, and the tail of the run after the newline block. -/
def matchBraceBlank (close : Char) (t : Str) : Option (Nat × Str) :=
  let w := t.takeWhile isWs
  match t.drop w.length with
  | d :: _ =>
    if d = close && occursB nl2Lit w then
      let j := lastNlNl w
      let run := ((w.drop j).takeWhile (fun c => c = '\n')).length
      some (w.length + 1, w.take j ++ '\n' :: (w.drop (j + run)) ++ [close])
    else none
  | [] => none

def reSubBraceBlankAux (close : Char) : Nat → Str → Str
  | 0, s => s
  | f + 1, s =>
    match s with
    | [] => []
    | c :: t =>
      if c = obr then
        match matchBraceBlank close t with
        | some (len, rep) => c :: rep ++ reSubBraceBlankAux close f (t.drop len)
        | none => c :: reSubBraceBlankAux close f t
      else c :: reSubBraceBlankAux close f t

def reSubBraceBlank (close : Char) (s : Str) : Str := reSubBraceBlankAux close s.length s

def delete_group (path : Str) (deleteItems : Bool) (content : Str) :
    DeleteResult × Option Str :=
  let p1 := delete_pass1 path (pySplitChar '\n' content) false 0
  let c1 := joinChar '\n' p1.1
  let p2 := delete_pass2 path deleteItems (pySplitChar '\n' c1)
  let c2 := joinChar '\n' p2.1
  let p3 := delete_pass3 path (pySplitChar '\n' c2)
  let c3 := joinChar '\n' p3.1
  let c4 := collapseBlank c3
  let c5 := reSubBraceBlank cbr c4
  let c6 := reSubBraceBlank '[' c5
  if p1.2.1 = false ∧ p1.2.2 = 0 ∧ p2.2.1 = 0 then
    ({deleted := false, itemsRemoved := p2.2.2, subgroupsRemoved := p1.2.2,
      uiRefsRemoved := p3.2, errors := [("Group not found").toList]}, none)
  else
    ({deleted := p1.2.1, itemsRemoved := p2.2.2, subgroupsRemoved := p1.2.2,
      uiRefsRemoved := p3.2, errors := []}, some c6)

/-! ## `add_groups` and the group-creation chain (lines 49-348, 583-646) -/

def mailingL : Str := ("Mailing").toList

def auctioningL : Str := ("Auctioning").toList

def craftingL : Str := ("Crafting").toList

def shoppingL : Str := ("Shopping").toList

def warehousingL : Str := ("Warehousing").toList

def vendoringL : Str := ("Vendoring").toList

/-- One operation skeleton of the Ascension group entry (lines 190-204). -/
def ascOpBlock (gi name : Str) (trailingComma : Bool) : Str :=
  gi ++ ("\t[\"").toList ++ name ++ ("\"] = \x7b\n").toList
    ++ gi ++ ("\t\t\"\", -- [1]\n").toList
    ++ gi ++ (if trailingComma then ("\t\x7d,\n").toList else ("\t\x7d\n").toList)

/-- The Ascension group entry (lines 189-205), at four-tab indentation. -/
def asc_group_entry (gi gp : Str) : Str :=
  gi ++ ("[\"").toList ++ gp ++ ("\"] = \x7b\n").toList
    ++ ascOpBlock gi mailingL true ++ ascOpBlock gi auctioningL true
    ++ ascOpBlock gi craftingL true ++ ascOpBlock gi shoppingL true
    ++ ascOpBlock gi warehousingL false
    ++ gi ++ ("\x7d").toList

/-- One operation skeleton of the fallback groups-table entry
(lines 260-274). -/
def ascOp2Block (ind name : Str) : Str :=
  ind ++ ("\t\t[\"").toList ++ name ++ ("\"] = \x7b\n").toList
    ++ ind ++ ("\t\t\t\"\", -- [1]\n").toList
    ++ ind ++ ("\t\t\x7d,\n").toList

/-- The fallback `["groups"]` table created before `["operations"]`
(lines 258-276). -/
def asc_group_entry2 (ind gp : Str) : Str :=
  ("[\"groups\"] = \x7b\n").toList
    ++ ind ++ ("\t[\"").toList ++ gp ++ ("\"] = \x7b\n").toList
    ++ ascOp2Block ind mailingL ++ ascOp2Block ind auctioningL
    ++ ascOp2Block ind craftingL ++ ascOp2Block ind shoppingL
    ++ ascOp2Block ind warehousingL
    ++ ind ++ ("\t\x7d,\n").toList
    ++ ind ++ ("\x7d,\r\n").toList ++ ind

/-- One operation skeleton of the retail group entry (lines 529-546). -/
def retailOpBlock (name : Str) : Str :=
  ("[\"").toList ++ name ++ ("\"] = \x7b\r\n\"#Default\",\r\n\x7d,\r\n").toList

/-- The retail group entry (lines 527-547). -/
def retail_group_entry (gp : Str) : Str :=
  ("\r\n[\"").toList ++ gp ++ ("\"] = \x7b\r\n").toList
    ++ retailOpBlock mailingL ++ retailOpBlock auctioningL ++ retailOpBlock craftingL
    ++ retailOpBlock warehousingL ++ retailOpBlock vendoringL ++ retailOpBlock shoppingL
    ++ ("\x7d,").toList

def charAt (content : Str) (i : Nat) : Char := content.getD i ' '

/-- `while prev_char_idx > 0 and content[prev_char_idx] in ' \t\r\n'`
(lines 208-210). -/
def prevNonWs (content : Str) : Nat → Nat
  | 0 => 0
  | i + 1 => if isWs4 (charAt content (i + 1)) then prevNonWs content i else i + 1

/-- The groups-table loop of `_ensure_group_exists_ascension`
(lines 146-178): returns `search_pos - 1`, the offset of the closing
brace of the real groups table. -/
def groups_end_asc_go (content : Str) : List (Nat × Nat) → Option Nat
  | [] => none
  | (ms, me) :: rest =>
    if lookback_inside_gts content ms then groups_end_asc_go content rest
    else
      let w := walkD (content.drop me) 1
      let searchPos := me + w.1
      let tableContent := pySlice me (searchPos - 1) content
      if occursB trueCommaLit tableContent || occursB eqTrueLit tableContent then
        groups_end_asc_go content rest
      else some (searchPos - 1)

/-- `_ensure_group_exists_ascension` (lines 138-281). -/
def ensure_group_exists_ascension (gp : Str) (content : Str) : Str :=
  match groups_end_asc_go content (findIter (matchTableMarker groupsNameL) content) with
  | some insertPos =>
    let gi := tab4
    let ti : Str := ['\t', '\t', '\t']
    let ge := asc_group_entry gi gp
    let pci := prevNonWs content (insertPos - 1)
    if charAt content pci = obr then
      content.take insertPos ++ (ge ++ (",\n").toList ++ ti) ++ content.drop insertPos
    else
      let pre : Str := if charAt content pci ≠ ',' then [','] else []
      content.take insertPos ++ (pre ++ ge ++ (",\n").toList ++ ti) ++ content.drop insertPos
  | none =>
    match reSearchSpan (matchTableMarker operationsNameL) 0 content with
    | some (opStart, _) =>
      let ls := lineStartBefore content opStart
      let ind0 := pySlice ls opStart content
      let ind := if ind0.all isWs then ind0 else ['\t', '\t', '\t']
      content.take opStart ++ asc_group_entry2 ind gp ++ content.drop opStart
    | none => content

/-- `_ensure_group_exists_retail` (lines 511-550). -/
def ensure_group_exists_retail (gp : Str) (content : Str) : Str :=
  match reSearchSpan (matchLitEqBrace retailLit) 0 content with
  | none => content
  | some (_, dbEnd) => content.take dbEnd ++ retail_group_entry gp ++ content.drop dbEnd

/-- `ensure_group_exists` (lines 49-97). -/
def ensure_group_exists (gp : Str) (content : Str) : Str :=
  match detect_tsm_format content with
  | TsmFormat.retail =>
    if reSearchB (matchTableMarker gp) content then content
    else ensure_group_exists_retail gp content
  | _ =>
    match find_real_groups_table content with
    | none => ensure_group_exists_ascension gp content
    | some (_, me, _) =>
      let w := walkD (content.drop me) 1
      let searchPos := me + w.1
      let rgc := pySlice me (searchPos - 1) content
      if reSearchB (matchTableMarker gp) rgc then content
      else ensure_group_exists_ascension gp content

/-- The cumulative tree-status key (lines 329-337): token 0 is the
sentinel `"1"`, token `k` is the first `k` segments joined by the
backtick separator, and the tokens are joined by spaces. -/
def gts_key (gp : Str) : Str :=
  let parts := pySplitChar '`' gp
  let pathParts := ("1").toList
    :: (List.range parts.length).map (fun i => joinChar '`' (parts.take (i + 1)))
  joinChar ' ' pathParts

/-- Matcher for `\["KEY"\]\s*=\s*true` (line 341). -/
def matchKeyEqTrue (key : Str) (s : Str) : Option Nat :=
  let lit := tableMarkerLit key
  if lit.isPrefixOf s then
    let r := s.drop lit.length
    let w := wsRun r
    match r.drop w with
    | '=' :: r2 =>
      let w2 := wsRun r2
      if ("true").toList.isPrefixOf (r2.drop w2) then some (lit.length + w + 1 + w2 + 4)
      else none
    | _ => none
  else none

def tab5 : Str := ['\t', '\t', '\t', '\t', '\t']

/-- `_ensure_group_tree_status_ascension` (lines 283-348). -/
def ensure_group_tree_status_ascension (gp : Str) (content : Str) : Str :=
  match reSearchSpan (matchTableMarker gtsNameL) 0 content with
  | none => content
  | some (_, gtsEnd0) =>
    let w := walkD (content.drop gtsEnd0) 1
    let gtsEnd := gtsEnd0 + w.1
    let gtsContent := pySlice gtsEnd0 gtsEnd content
    match reSearchSpan (matchTableMarker groupsNameL) 0 gtsContent with
    | none => content
    | some (_, sgEnd) =>
      let innerStart := gtsEnd0 + sgEnd
      let w2 := walkD (content.drop innerStart) 1
      let innerEnd := innerStart + w2.1 - 1
      let innerContent := pySlice innerStart innerEnd content
      let key := gts_key gp
      if reSearchB (matchKeyEqTrue key) innerContent then content
      else
        let newEntry := '\n' :: tab5 ++ ("[\"").toList ++ key ++ ("\"] = true,").toList
        content.take innerEnd ++ newEntry ++ content.drop innerEnd

structure GroupsResult where
  added : Nat
  skipped : Nat
  errors : List Str
  groupsAdded : List Str
deriving Repr, DecidableEq

/-- Prefix-chain expansion of the requested paths (lines 606-611),
modelled as an insertion-ordered deduplicated list (the source collects
them in a `set`). -/
def expandPaths (paths : List Str) : List Str :=
  paths.foldl (fun acc gp =>
    let parts := pySplitChar '`' gp
    (List.range parts.length).foldl (fun acc2 i =>
      let pp := joinChar '`' (parts.take (i + 1))
      if pp ∈ acc2 then acc2 else acc2 ++ [pp]) acc) []

/-- The per-group loop of `add_groups` (lines 616-628):
returns `(content, added, skipped, groups_added)`. -/
def add_groups_go : List Str → Str → Str × Nat × Nat × List Str
  | [], content => (content, 0, 0, [])
  | gp :: rest, content =>
    let c1 := ensure_group_exists gp content
    let c2 :=
      if detect_tsm_format c1 = TsmFormat.ascension
      then ensure_group_tree_status_ascension gp c1 else c1
    let r := add_groups_go rest c2
    if c2 ≠ content then (r.1, r.2.1 + 1, r.2.2.1, gp :: r.2.2.2)
    else (r.1, r.2.1, r.2.2.1 + 1, r.2.2.2)

/-- `add_groups` (lines 583-646): expansion, length-sorted insertion
(parents first), tree-status bookkeeping, UI-state cleanup.  The
operation always writes when not in preview mode. -/
def add_groups (paths : List Str) (content : Str) : GroupsResult × Option Str :=
  let sortedGroups := (expandPaths paths).mergeSort (fun a b => decide (a.length ≤ b.length))
  let r := add_groups_go sortedGroups content
  ({added := r.2.1, skipped := r.2.2.1, errors := [], groupsAdded := r.2.2.2},
    some (cleanup_ui_state r.1))

/-! ## File-system model: backup-then-write (lines 37-47, 633-645,
712-716, 755-764, 815-824, 942-951)

The on-disk state is the document (if the file exists) plus the set of
backup copies.  The environment records whether the backup copy and the
write succeed; `create_backup` raising an exception is modelled as
`none`, which aborts the operation before the write. -/

structure FS where
  doc : Option Str
  backups : List Str
deriving DecidableEq

structure Env where
  backupOk : Bool
  writeOk : Bool
deriving DecidableEq

/-- `create_backup` (lines 37-47): no backup when the file does not
exist; otherwise a full copy of the current document is added to the
backup directory, or the copy raises. -/
def create_backup (env : Env) (fs : FS) : Option (FS × Bool) :=
  match fs.doc with
  | none => some (fs, false)
  | some d =>
    if env.backupOk then some ({fs with backups := d :: fs.backups}, true)
    else none

/-- The `create_backup(); open(self.filepath, 'w')...write(content)`
block shared by every mutating operation. -/
def commit (env : Env) (fs : FS) (newContent : Str) : FS :=
  match create_backup env fs with
  | none => fs
  | some (fs1, _) => if env.writeOk then {fs1 with doc := some newContent} else fs1

/-- The five mutating operations of the Mutation Orchestrator. -/
inductive OpCall where
  | addItems (items : List (Nat × Str))
  | addGroups (paths : List Str)
  | removeItems (ids : List Nat)
  | renameGroup (old new : Str)
  | deleteGroup (path : Str) (cascadeItems : Bool)

/-- The buffer each operation would write for a given document, `none`
when the operation never reaches its write block. -/
def opOutput : OpCall → Str → Option Str
  | OpCall.addItems items, c => (add_items items c).2
  | OpCall.addGroups paths, c => (add_groups paths c).2
  | OpCall.removeItems ids, c => (remove_items ids c).2
  | OpCall.renameGroup o n, c => (rename_group o n c).2
  | OpCall.deleteGroup p b, c => (delete_group p b c).2

/-- Run one mutating operation against the file system: read, compute,
and (outside preview mode) back up and write. -/
def runOp (op : OpCall) (env : Env) (dryRun : Bool) (fs : FS) : FS :=
  match fs.doc with
  | none => fs
  | some c =>
    match opOutput op c with
    | none => fs
    | some buf => if dryRun then fs else commit env fs buf

/-! ## Split / join roundtrip -/

theorem joinChar_single (sep : Char) (a : Str) : joinChar sep [a] = a := by
  simp [joinChar]

theorem joinChar_cons₂ (sep : Char) (a b : Str) (t : List Str) :
    joinChar sep (a :: b :: t) = a ++ sep :: joinChar sep (b :: t) := by
  simp [joinChar, List.intersperse_cons_cons]

theorem pySplitChar_sepFree {sep : Char} {a : Str} (h : sep ∉ a) :
    pySplitChar sep a = [a] := by
  induction a with
  | nil => simp [pySplitChar]
  | cons c t ih =>
    have hc : ¬ (c = sep) := by
      intro hcs; exact h (by simp [hcs])
    have ht := ih (fun hm => h (by simp [hm]))
    simp [pySplitChar, hc, ht]

theorem pySplitChar_append_sep {sep : Char} {a : Str} (r : Str) (h : sep ∉ a) :
    pySplitChar sep (a ++ sep :: r) = a :: pySplitChar sep r := by
  induction a with
  | nil => simp [pySplitChar]
  | cons c t ih =>
    have hc : ¬ (c = sep) := by
      intro hcs; exact h (by simp [hcs])
    have ht := ih (fun hm => h (by simp [hm]))
    simp [pySplitChar, hc, ht]

theorem pySplitChar_joinChar {sep : Char} :
    ∀ (segs : List Str), segs ≠ [] → (∀ seg ∈ segs, sep ∉ seg) →
      pySplitChar sep (joinChar sep segs) = segs := by
  intro segs
  induction segs with
  | nil => intro h _; exact absurd rfl h
  | cons a t ih =>
    intro _ hsep
    cases t with
    | nil =>
      rw [joinChar_single]
      exact pySplitChar_sepFree (hsep a (by simp))
    | cons b t2 =>
      rw [joinChar_cons₂]
      rw [pySplitChar_append_sep _ (hsep a (by simp))]
      rw [ih (by simp) (fun seg hs => hsep seg (by simp [hs]))]

/-! ## Claim C4: the tree-status key encoding -/

/-- C4: for every group path with segments `s1..sn` (none containing the
separator), the tree-status bookkeeping key computed by
`_ensure_group_tree_status_ascension` is the space-joined token list
whose token 0 is the sentinel `"1"` and whose token `k` is the first `k`
segments joined by the backtick separator. -/
theorem c4_tree_status_key (segs : List Str) (hne : segs ≠ [])
    (hsep : ∀ seg ∈ segs, '`' ∉ seg) :
    gts_key (joinChar '`' segs)
      = joinChar ' ' (("1").toList
          :: (List.range segs.length).map (fun k => joinChar '`' (segs.take (k + 1)))) := by
  simp only [gts_key]
  rw [pySplitChar_joinChar segs hne hsep]

/-- Witness: for segments `[A, B, C]` the key is exactly
`"1 A A`B A`B`C"`. -/
theorem c4_tree_status_key_witness :
    gts_key (("A`B`C").toList) = ("1 A A`B A`B`C").toList := by
  have h := c4_tree_status_key [("A").toList, ("B").toList, ("C").toList]
    (by decide) (by decide)
  have e1 : joinChar '`' [("A").toList, ("B").toList, ("C").toList] = ("A`B`C").toList := by
    decide
  have e2 : joinChar ' ' (("1").toList
      :: (List.range ([("A").toList, ("B").toList, ("C").toList].length)).map
        (fun k => joinChar '`' ([("A").toList, ("B").toList, ("C").toList].take (k + 1))))
      = ("1 A A`B A`B`C").toList := by decide
  rw [e1, e2] at h
  exact h

/-! ## Claim C9: balance invariant of returned region spans -/

/-- A concrete Ascension document with groups `A`B`, `A`B`C`, `A`D`, an
item assigned to each of `A`B`C` and `A`D`, and tree-status entries. -/
def docDelete : Str :=
  ("AscensionTSMDB = \x7b\n"
   ++ "\t[\"profiles\"] = \x7b\n"
   ++ "\t\t[\"Default\"] = \x7b\n"
   ++ "\t\t\t[\"groups\"] = \x7b\n"
   ++ "\t\t\t\t[\"A`B\"] = \x7b\n\t\t\t\t\t[\"Mailing\"] = \x7b\n\t\t\t\t\t\x7d,\n\t\t\t\t\x7d,\n"
   ++ "\t\t\t\t[\"A`B`C\"] = \x7b\n\t\t\t\t\t[\"Mailing\"] = \x7b\n\t\t\t\t\t\x7d,\n\t\t\t\t\x7d,\n"
   ++ "\t\t\t\t[\"A`D\"] = \x7b\n\t\t\t\t\t[\"Mailing\"] = \x7b\n\t\t\t\t\t\x7d,\n\t\t\t\t\x7d,\n"
   ++ "\t\t\t\x7d,\n"
   ++ "\t\t\t[\"items\"] = \x7b\n"
   ++ "\t\t\t\t[\"item:111:0:0:0:0:0:0\"] = \"A`B`C\",\n"
   ++ "\t\t\t\t[\"item:222:0:0:0:0:0:0\"] = \"A`D\",\n"
   ++ "\t\t\t\x7d,\n"
   ++ "\t\t\t[\"groupTreeStatus\"] = \x7b\n"
   ++ "\t\t\t\t[\"groups\"] = \x7b\n"
   ++ "\t\t\t\t\t[\"1 A A`B\"] = true,\n"
   ++ "\t\t\t\t\t[\"1 A A`B A`B`C\"] = true,\n"
   ++ "\t\t\t\t\t[\"1 A A`D\"] = true,\n"
   ++ "\t\t\t\t\x7d,\n"
   ++ "\t\t\t\x7d,\n"
   ++ "\t\t\x7d,\n"
   ++ "\t\x7d,\n"
   ++ "\x7d\n").toList

theorem find_real_groups_go_spec {content : Str} :
    ∀ (l : List (Nat × Nat)) {ms me sp : Nat},
      find_real_groups_table_go content l = some (ms, me, sp) →
      (walkD (content.drop me) 1).2 = 0 ∧ sp = me + (walkD (content.drop me) 1).1 := by
  intro l
  induction l with
  | nil => intro ms me sp h; simp [find_real_groups_table_go] at h
  | cons mm rest ih =>
    intro ms me sp h
    obtain ⟨a, b⟩ := mm
    simp only [find_real_groups_table_go] at h
    by_cases h1 : lookback_inside_gts content a
    · rw [if_pos h1] at h; exact ih h
    · rw [if_neg h1] at h
      by_cases h2 : (walkD (content.drop b) 1).2 = 0
      · rw [if_pos h2] at h
        by_cases h3 : (occursB trueCommaLit
              (pySlice b (b + (walkD (content.drop b) 1).1 - 1) content)
            || occursB eqTrueLit (pySlice b (b + (walkD (content.drop b) 1).1 - 1) content)) = true
        · rw [if_pos h3] at h; exact ih h
        · rw [if_neg h3] at h
          have hinj := Option.some.inj h
          have e2 : b = me := congrArg (fun x : Nat × Nat × Nat => x.2.1) hinj
          have e3 : b + (walkD (content.drop b) 1).1 = sp :=
            congrArg (fun x : Nat × Nat × Nat => x.2.2) hinj
          constructor
          · rw [← e2]; exact h2
          · rw [← e2, ← e3]
      · rw [if_neg h2] at h; exact ih h

/-- C9: every region span returned by the Region Matcher's brace-counting
walk is balanced — for each region located by `_find_real_groups_table`
the span between the table's opening brace and the matched closing brace
holds as many opening as closing delimiters — and whenever the walk never
returns to depth zero it consumes to end of text, so the matcher never
returns a span with a mismatched delimiter count. -/
theorem c9_balanced_spans :
    (∀ (content : Str) (ms me sp : Nat),
        find_real_groups_table content = some (ms, me, sp) →
        countChar obr (pySlice me (sp - 1) content)
          = countChar cbr (pySlice me (sp - 1) content))
    ∧ (∀ (s : Str) (d : Nat), (walkD s d).2 ≠ 0 → (walkD s d).1 = s.length) := by
  constructor
  · intro content ms me sp h
    obtain ⟨hz, hsp⟩ := find_real_groups_go_spec _ h
    have hb := @walkD_balance (content.drop me) 1 (by omega) hz
    have hslice : pySlice me (sp - 1) content
        = (content.drop me).take ((walkD (content.drop me) 1).1 - 1) := by
      simp only [pySlice]
      rw [List.drop_take]
      congr 1
      omega
    rw [hslice]
    omega
  · intro s d h
    exact walkD_consumes_all h

set_option maxRecDepth 40000 in
/-- Witness: the span of the real groups table of `docDelete` is
balanced, and the walk on the unbalanced text consumes to end of
text. -/
theorem c9_balanced_spans_witness :
    countChar obr (pySlice 72 234 docDelete) = countChar cbr (pySlice 72 234 docDelete)
      ∧ (walkD (['\x7b'] : Str) 1).1 = ([ '\x7b' ] : Str).length :=
  ⟨c9_balanced_spans.1 docDelete 58 72 235 (by decide),
   c9_balanced_spans.2 ['\x7b'] 1 (by decide)⟩

/-! ## Claim C3: backup before write -/

/-- C3: for every mutating operation run outside preview mode on an
existing document, if the operation's write changes the on-disk document
then the backup succeeded and a full copy of the pre-mutation document is
in the backup directory (the backup is taken before the write); and
whenever backup creation fails, the write does not proceed — the file
system is left untouched. -/
theorem c3_backup_before_write (op : OpCall) (env : Env) (fs : FS) (d : Str)
    (h : fs.doc = some d) :
    (env.backupOk = false → runOp op env false fs = fs)
    ∧ ((runOp op env false fs).doc ≠ fs.doc →
        env.backupOk = true ∧ d ∈ (runOp op env false fs).backups) := by
  simp only [runOp, h]
  cases hout : opOutput op d with
  | none => exact ⟨fun _ => rfl, fun hc => absurd h hc⟩
  | some buf =>
    simp only [Bool.false_eq_true, if_false]
    cases hb : env.backupOk with
    | false =>
      simp [commit, create_backup, h, hb]
    | true =>
      cases hw : env.writeOk with
      | false => simp [commit, create_backup, h, hb, hw]
      | true =>
        constructor
        · intro hc; exact absurd hc (by simp)
        · intro _
          refine ⟨rfl, ?_⟩
          simp [commit, create_backup, h, hb, hw]

set_option maxRecDepth 40000 in
/-- Witness: removing an item from `docDelete` with a working backup
environment leaves a full copy of the pre-mutation document in the
backup directory. -/
theorem c3_backup_before_write_witness :
    docDelete ∈ (runOp (OpCall.removeItems [111]) (Env.mk true true) false
      (FS.mk (some docDelete) [])).backups := by
  have h := (c3_backup_before_write (OpCall.removeItems [111]) (Env.mk true true)
    (FS.mk (some docDelete) []) docDelete rfl).2
  refine (h ?_).2
  decide

/-! ## Claim C10: each identifier removes at most one line -/

theorem remove_items_go_card (S : Finset Nat) :
    ∀ lines : List Str,
      (remove_items_go S lines).1 + (remove_items_go S lines).2.1.card = S.card := by
  induction S using Finset.strongInduction with
  | _ S ih =>
    intro lines
    induction lines with
    | nil => simp [remove_items_go]
    | cons l ls ihl =>
      cases hid : lineItemId l with
      | none =>
        simp only [remove_items_go, hid]
        simpa using ihl
      | some id =>
        by_cases hm : id ∈ S
        · simp only [remove_items_go, hid, if_pos hm]
          have hsub : S.erase id ⊂ S := Finset.erase_ssubset hm
          have hcard := ih (S.erase id) hsub ls
          have hco := Finset.card_erase_add_one hm
          omega
        · simp only [remove_items_go, hid, if_neg hm]
          simpa using ihl

theorem remove_items_go_emptyset : ∀ lines : List Str,
    remove_items_go (∅ : Finset Nat) lines = (0, ∅, lines) := by
  intro lines
  induction lines with
  | nil => simp [remove_items_go]
  | cons l ls ih =>
    cases hid : lineItemId l with
    | none => simp [remove_items_go, hid, ih]
    | some id => simp [remove_items_go, hid, ih]

theorem remove_items_go_skip {id : Nat} :
    ∀ (L1 : List Str) (rest : List Str),
      (∀ l ∈ L1, lineItemId l ≠ some id) →
      remove_items_go ({id} : Finset Nat) (L1 ++ rest)
        = ((remove_items_go ({id} : Finset Nat) rest).1,
           (remove_items_go ({id} : Finset Nat) rest).2.1,
           L1 ++ (remove_items_go ({id} : Finset Nat) rest).2.2) := by
  intro L1
  induction L1 with
  | nil => intro rest _; simp
  | cons l L1t ih =>
    intro rest hL
    cases hid : lineItemId l with
    | none =>
      simp only [List.cons_append, remove_items_go, hid, List.append_eq]
      rw [ih rest (fun x hx => hL x (by simp [hx]))]
    | some id2 =>
      have hne : id2 ∉ ({id} : Finset Nat) := by
        simp only [Finset.mem_singleton]
        intro hc
        exact hL l (by simp) (by rw [hid, hc])
      simp only [List.cons_append, remove_items_go, hid, if_neg hne, List.append_eq]
      rw [ih rest (fun x hx => hL x (by simp [hx]))]

/-- C10: each requested identifier deletes at most one line.
Part one: `removed + notFound` always equals the number of distinct
requested identifiers.  Part two: with a single requested identifier,
once the first matching line is removed the identifier is dropped from
the removal set, so a later duplicate line `b` with the same identifier
is preserved in the output. -/
theorem c10_remove_at_most_one_line :
    (∀ (ids : List Nat) (content : Str),
        (remove_items ids content).1.removed + (remove_items ids content).1.notFound
          = ids.toFinset.card)
    ∧ (∀ (id : Nat) (L1 L2 L3 : List Str) (a b : Str),
        (∀ l ∈ L1, lineItemId l ≠ some id) →
        lineItemId a = some id → lineItemId b = some id →
        remove_items_go ({id} : Finset Nat) (L1 ++ a :: (L2 ++ b :: L3))
          = (1, (∅ : Finset Nat), L1 ++ (L2 ++ b :: L3))) := by
  constructor
  · intro ids content
    simp only [remove_items]
    have h := remove_items_go_card (ids.toFinset) (pySplitChar '\n' content)
    by_cases hpos : 0 < (remove_items_go ids.toFinset (pySplitChar '\n' content)).1
    · rw [if_pos hpos]
      exact h
    · rw [if_neg hpos]
      exact h
  · intro id L1 L2 L3 a b hL ha hb
    rw [remove_items_go_skip L1 _ hL]
    have hstep : remove_items_go ({id} : Finset Nat) (a :: (L2 ++ b :: L3))
        = (1, ∅, L2 ++ b :: L3) := by
      simp only [remove_items_go, ha, if_pos (Finset.mem_singleton_self id)]
      have : ({id} : Finset Nat).erase id = ∅ := by simp
      rw [this, remove_items_go_emptyset]
    rw [hstep]

/-- Witness: requesting identifier 7 against a document with two lines
for item 7 removes only the first; `removed + notFound` equals the
number of distinct requested identifiers. -/
theorem c10_remove_at_most_one_line_witness :
    ((remove_items [7, 7, 9] docDelete).1.removed
        + (remove_items [7, 7, 9] docDelete).1.notFound = ([7, 7, 9] : List Nat).toFinset.card)
    ∧ remove_items_go ({7} : Finset Nat)
        ([] ++ ("\t[\"item:7:0:0:0:0:0:0\"] = \"G\",").toList
          :: ([] ++ ("\t[\"item:7:0:0:0:0:0:0\"] = \"X\",").toList :: []))
        = (1, (∅ : Finset Nat),
           [] ++ ([] ++ ("\t[\"item:7:0:0:0:0:0:0\"] = \"X\",").toList :: [])) :=
  ⟨c10_remove_at_most_one_line.1 [7, 7, 9] docDelete,
   c10_remove_at_most_one_line.2 7 [] [] [] _ _ (by decide) (by decide) (by decide)⟩

/-! ## Occurrence refutation around digit runs -/

theorem drop_cons_getD {p : Str} {k : Nat} (h : k < p.length) :
    p.drop k = p.getD k ' ' :: p.drop (k + 1) := by
  rw [List.getD_eq_getElem p ' ' h]
  exact List.drop_eq_getElem_cons h

theorem headD_mem_take {p : Str} {k : Nat} (h : 0 < k) (hne : p ≠ []) :
    p.headD ' ' ∈ p.take k := by
  cases p with
  | nil => exact absurd rfl hne
  | cons a t =>
    cases k with
    | zero => omega
    | succ n => simp

theorem not_infix_of_charset {p x : Str} {c0 : Char} (hc : c0 ∈ p) (hx : c0 ∉ x) :
    ¬ p <:+: x :=
  fun h => hx (h.subset hc)

/-- A pattern none of whose characters is a digit cannot occur in
`A ++ (D ++ B)` when it occurs in neither `A` nor `B` and `D` is a
non-empty digit run: no occurrence can overlap the digits. -/
theorem not_occurs_digits_mid {p A D B : Str}
    (hD : ∀ c ∈ D, isDigit c = true) (hDne : D ≠ [])
    (hA : ¬ p <:+: A) (hB : ¬ p <:+: B) (hpne : p ≠ [])
    (hpk : ∀ k, k < p.length → isDigit (p.getD k ' ') = false) :
    ¬ p <:+: A ++ (D ++ B) := by
  intro h
  rcases infix_append_decomp h with h1 | h2 | ⟨k, hk0, hkl, htake, hdrop⟩
  · exact hA h1
  · rcases infix_append_decomp h2 with h3 | h4 | ⟨k, hk0, hkl, htake, _⟩
    · have hd0 : isDigit (p.headD ' ') = false := by
        have := hpk 0 (by cases p with
          | nil => exact absurd rfl hpne
          | cons a t => simp)
        cases p with
        | nil => exact absurd rfl hpne
        | cons a t => simpa using this
      have hmem : p.headD ' ' ∈ D := h3.subset (by
        cases p with
        | nil => exact absurd rfl hpne
        | cons a t => simp)
      rw [hD _ hmem] at hd0
      simp at hd0
    · exact hB h4
    · have hmem : p.headD ' ' ∈ D := htake.subset (headD_mem_take hk0 hpne)
      have hd0 : isDigit (p.headD ' ') = false := by
        have := hpk 0 (by cases p with
          | nil => exact absurd rfl hpne
          | cons a t => simp)
        cases p with
        | nil => exact absurd rfl hpne
        | cons a t => simpa using this
      rw [hD _ hmem] at hd0
      simp at hd0
  · obtain ⟨d0, dt, rfl⟩ := List.exists_cons_of_ne_nil hDne
    rw [drop_cons_getD hkl, List.cons_append] at hdrop
    have hhead := (List.cons_prefix_cons.mp hdrop).1
    have := hpk k hkl
    rw [hhead, hD d0 (by simp)] at this
    simp at this

/-! ## Claim C8: removal works only for the legacy key encoding -/

/-- `TSMLuaParser.get_item_id` (lua_parser.py lines 153-171): decodes the
numeric identifier from either key encoding, trying the short `i:<id>`
format first and the legacy `item:<id>` format second. -/
def get_item_id (k : Str) : Option Nat :=
  let retailDs := if (("i:").toList).isPrefixOf k then (k.drop 2).takeWhile isDigit else []
  if retailDs.isEmpty = false then some (digitsVal retailDs)
  else
    let classicDs :=
      if (("item:").toList).isPrefixOf k then (k.drop 5).takeWhile isDigit else []
    if classicDs.isEmpty = false then some (digitsVal classicDs)
    else none

/-- A serialized short-format entry `\t\t\t\t["i:ID"] = "GROUP",`. -/
def shortEntryLine (idStr gp : Str) : Str :=
  tab4 ++ ("[\"i:").toList ++ idStr ++ ("\"] = \"").toList ++ gp ++ ("\",").toList

/-- A document in the flat top-level schema holding one short-format item
entry for identifier 5. -/
def docShortFmt : Str :=
  ("TradeSkillMasterDB = \x7b\n[\"i:5\"] = \"G\",\n\x7d\n").toList

/-- C8 counterexample: identifier 5 has an entry whose key `i:5` decodes
to 5 (per `get_item_id`), yet `remove_items` does not remove its line:
it reports the identifier as not found and never writes, so removal is
not performed "regardless of which key encoding the entry uses". -/
theorem c8_counterexample :
    get_item_id (("i:5").toList) = some 5
    ∧ occursB (("i:5").toList) docShortFmt = true
    ∧ (remove_items [5] docShortFmt).1.removed = 0
    ∧ (remove_items [5] docShortFmt).1.notFound = 1
    ∧ (remove_items [5] docShortFmt).2 = none := by
  decide

theorem matchLineItemId_ne_none_lit {t : Str} (h : matchLineItemId t ≠ none) :
    itemPreLit <+: t := by
  by_cases hp : itemPreLit.isPrefixOf t
  · exact List.isPrefixOf_iff_prefix.mp hp
  · exfalso
    simp only [matchLineItemId, hp] at h
    simp at h

theorem reSearchVal_none {m : Str → Option Nat} {s : Str}
    (h : ∀ t : Str, t <:+ s → m t = none) : reSearchVal m s = none := by
  induction s with
  | nil => simp [reSearchVal]
  | cons c t ih =>
    simp only [reSearchVal]
    rw [h (c :: t) List.suffix_rfl]
    exact ih (fun u hu => h u (hu.trans (List.suffix_cons c t)))

theorem reSearchVal_cons_none {m : Str → Option Nat} {c : Char} {t : Str}
    (h : m (c :: t) = none) : reSearchVal m (c :: t) = reSearchVal m t := by
  simp [reSearchVal, h]

theorem reSearchVal_eq_some {m : Str → Option Nat} {s : Str} {v : Nat}
    (h : m s = some v) (hs : s ≠ []) : reSearchVal m s = some v := by
  cases s with
  | nil => exact absurd rfl hs
  | cons c t => simp [reSearchVal, h]

def gG : Str := ("G").toList

theorem short_line_no_item_id (id : Nat) :
    lineItemId (shortEntryLine (natStr id) gG) = none := by
  have hsplit : shortEntryLine (natStr id) gG
      = (tab4 ++ ("[\"i:").toList) ++ (natStr id ++ (("\"] = \"G\",").toList)) := by
    simp [shortEntryLine, gG]
  rw [hsplit]
  apply reSearchVal_none
  intro t ht
  by_contra hne
  have hlit := matchLineItemId_ne_none_lit hne
  have hocc : itemPreLit <:+: (tab4 ++ ("[\"i:").toList) ++ (natStr id ++ (("\"] = \"G\",").toList)) :=
    hlit.isInfix.trans ht.isInfix
  exact not_occurs_digits_mid (fun c hc => natStr_digits c hc) natStr_ne_nil
    (by decide) (by decide) (by decide) (by decide) hocc

theorem isPrefixOf_append_self (a b : Str) : a.isPrefixOf (a ++ b) = true :=
  List.isPrefixOf_iff_prefix.mpr (List.prefix_append a b)

theorem legacy_line_item_id (id : Nat) (gp : Str) :
    lineItemId (itemEntryLine tab4 (natStr id) gp) = some id := by
  have hline : itemEntryLine tab4 (natStr id) gp
      = '\t' :: '\t' :: '\t' :: '\t'
        :: (itemPreLit ++ (natStr id ++ (':' :: (("0:0:0:0:0:0\"] = \"").toList ++ gp ++ ("\",").toList)))) := by
    simp [itemEntryLine, itemKeyLit, itemPreLit, tab4]
  rw [hline]
  have htab : ∀ t : Str, matchLineItemId ('\t' :: t) = none := by
    intro t
    have hp : itemPreLit.isPrefixOf ('\t' :: t) = false := by
      simp [itemPreLit, List.isPrefixOf]
    simp [matchLineItemId, hp]
  simp only [lineItemId]
  rw [reSearchVal_cons_none (htab _), reSearchVal_cons_none (htab _),
    reSearchVal_cons_none (htab _), reSearchVal_cons_none (htab _)]
  have hmatch : matchLineItemId (itemPreLit
      ++ (natStr id ++ (':' :: (("0:0:0:0:0:0\"] = \"").toList ++ gp ++ ("\",").toList))))
      = some id := by
    simp only [matchLineItemId, isPrefixOf_append_self, if_pos]
    rw [List.drop_left]
    rw [takeWhile_all_not _ (fun c hc => natStr_digits c hc) (by decide)]
    have hne2 : (natStr id).isEmpty = false := by
      cases hnn : natStr id with
      | nil => exact absurd hnn natStr_ne_nil
      | cons a t => simp
    rw [hne2]
    simp only [Bool.false_eq_true, if_false]
    rw [List.drop_left]
    simp [digitsVal_natStr]
  exact reSearchVal_eq_some hmatch (by simp [itemPreLit])

theorem remove_legacy_go (id : Nat) (L1 L2 : List Str) (gp : Str)
    (hL1 : ∀ l ∈ L1, lineItemId l ≠ some id) :
    remove_items_go ({id} : Finset Nat) (L1 ++ itemEntryLine tab4 (natStr id) gp :: L2)
      = (1, (∅ : Finset Nat), L1 ++ L2) := by
  rw [remove_items_go_skip L1 _ hL1]
  have hstep : remove_items_go ({id} : Finset Nat) (itemEntryLine tab4 (natStr id) gp :: L2)
      = (1, ∅, L2) := by
    simp only [remove_items_go, legacy_line_item_id id gp,
      if_pos (Finset.mem_singleton_self id)]
    have he : ({id} : Finset Nat).erase id = ∅ := by simp
    rw [he, remove_items_go_emptyset]
  rw [hstep]

/-- C8 amended: `removeItems` removes a line only when its key uses the
legacy `item:<id>:` encoding.  For every identifier, a short-format
entry line `["i:<id>"] = "G",` never matches the removal scan (so such
identifiers count toward `notFound`), while the legacy entry line for
the same identifier is matched, decoded, and its line removed exactly
once. -/
theorem c8_removal_legacy_only (id : Nat) (L1 L2 : List Str)
    (hL1 : ∀ l ∈ L1, lineItemId l ≠ some id) :
    lineItemId (shortEntryLine (natStr id) gG) = none
    ∧ lineItemId (itemEntryLine tab4 (natStr id) gG) = some id
    ∧ remove_items_go ({id} : Finset Nat)
        (L1 ++ itemEntryLine tab4 (natStr id) gG :: L2)
      = (1, (∅ : Finset Nat), L1 ++ L2) :=
  ⟨short_line_no_item_id id, legacy_line_item_id id gG, remove_legacy_go id L1 L2 gG hL1⟩

/-- Witness at identifier 42. -/
theorem c8_removal_legacy_only_witness :
    lineItemId (shortEntryLine (natStr 42) gG) = none
    ∧ lineItemId (itemEntryLine tab4 (natStr 42) gG) = some 42
    ∧ remove_items_go ({42} : Finset Nat)
        ([("x").toList] ++ itemEntryLine tab4 (natStr 42) gG :: [])
      = (1, (∅ : Finset Nat), [("x").toList] ++ []) :=
  c8_removal_legacy_only 42 [("x").toList] [] (by decide)

/-! ## Claim C5: deletion completeness -/

/-- The expected document after `deleteGroup("A`B", cascadeItems=true)`
on `docDelete`. -/
def docDeleteAfter : Str :=
  ("AscensionTSMDB = \x7b\n"
   ++ "\t[\"profiles\"] = \x7b\n"
   ++ "\t\t[\"Default\"] = \x7b\n"
   ++ "\t\t\t[\"groups\"] = \x7b\n"
   ++ "\t\t\t\t[\"A`D\"] = \x7b\n\t\t\t\t\t[\"Mailing\"] = \x7b\n\t\t\t\t\t\x7d,\n\t\t\t\t\x7d,\n"
   ++ "\t\t\t\x7d,\n"
   ++ "\t\t\t[\"items\"] = \x7b\n"
   ++ "\t\t\t\t[\"item:222:0:0:0:0:0:0\"] = \"A`D\",\n"
   ++ "\t\t\t\x7d,\n"
   ++ "\t\t\t[\"groupTreeStatus\"] = \x7b\n"
   ++ "\t\t\t\t[\"groups\"] = \x7b\n"
   ++ "\t\t\t\t\t[\"1 A A`D\"] = true,\n"
   ++ "\t\t\t\t\x7d,\n"
   ++ "\t\t\t\x7d,\n"
   ++ "\t\t\x7d,\n"
   ++ "\t\x7d,\n"
   ++ "\x7d\n").toList

/-- `docDelete` with the group's own definition line serialized with two
spaces (`["A`B"] =  {`): it satisfies the deletion scenario's premise
(group `A`B`, descendant `A`B`C`, an item assigned to `A`B`C`) but the
definition line contains neither the exact text `= {` demanded by the
loose first pattern nor a separator after the path as demanded by the
stricter second pattern. -/
def docDeleteEsc : Str :=
  ("AscensionTSMDB = \x7b\n"
   ++ "\t[\"profiles\"] = \x7b\n"
   ++ "\t\t[\"Default\"] = \x7b\n"
   ++ "\t\t\t[\"groups\"] = \x7b\n"
   ++ "\t\t\t\t[\"A`B\"] =  \x7b\n\t\t\t\t\t[\"Mailing\"] = \x7b\n\t\t\t\t\t\x7d,\n\t\t\t\t\x7d,\n"
   ++ "\t\t\t\t[\"A`B`C\"] = \x7b\n\t\t\t\t\t[\"Mailing\"] = \x7b\n\t\t\t\t\t\x7d,\n\t\t\t\t\x7d,\n"
   ++ "\t\t\t\t[\"A`D\"] = \x7b\n\t\t\t\t\t[\"Mailing\"] = \x7b\n\t\t\t\t\t\x7d,\n\t\t\t\t\x7d,\n"
   ++ "\t\t\t\x7d,\n"
   ++ "\t\t\t[\"items\"] = \x7b\n"
   ++ "\t\t\t\t[\"item:111:0:0:0:0:0:0\"] = \"A`B`C\",\n"
   ++ "\t\t\t\t[\"item:222:0:0:0:0:0:0\"] = \"A`D\",\n"
   ++ "\t\t\t\x7d,\n"
   ++ "\t\t\t[\"groupTreeStatus\"] = \x7b\n"
   ++ "\t\t\t\t[\"groups\"] = \x7b\n"
   ++ "\t\t\t\t\t[\"1 A A`B\"] = true,\n"
   ++ "\t\t\t\t\t[\"1 A A`B A`B`C\"] = true,\n"
   ++ "\t\t\t\t\t[\"1 A A`D\"] = true,\n"
   ++ "\t\t\t\t\x7d,\n"
   ++ "\t\t\t\x7d,\n"
   ++ "\t\t\x7d,\n"
   ++ "\t\x7d,\n"
   ++ "\x7d\n").toList

set_option maxRecDepth 100000 in
/-- C5 counterexample: `docDeleteEsc` contains group `A`B`, its
descendant `A`B`C` and an item assigned to `A`B`C`, yet
`deleteGroup("A`B", cascadeItems=true)` leaves the group's own region in
the written document: the definition line `["A`B"] =  {` escapes both
region-start patterns of the first pass, so only the descendant region,
the item assignments and the UI references are removed while the
operation still reports `deleted = true`. -/
theorem c5_counterexample :
    occursB (("[\"A`B\"] =").toList) docDeleteEsc = true
    ∧ occursB (tableMarkerLit (("A`B`C").toList)) docDeleteEsc = true
    ∧ occursB (("= \"A`B`C\",").toList) docDeleteEsc = true
    ∧ delGroupStart (("A`B").toList) (("\t\t\t\t[\"A`B\"] =  \x7b").toList) = false
    ∧ delSubgroupStart (("A`B").toList) (("\t\t\t\t[\"A`B\"] =  \x7b").toList) = false
    ∧ (delete_group (("A`B").toList) true docDeleteEsc).1.deleted = true
    ∧ (delete_group (("A`B").toList) true docDeleteEsc).1.itemsRemoved = 1
    ∧ occursB (("[\"A`B\"] =  \x7b").toList)
        ((delete_group (("A`B").toList) true docDeleteEsc).2.getD docDeleteEsc) = true := by
  decide

set_option maxRecDepth 100000 in
/-- C5 (amended): on a canonically serialized document — every group
definition line carries the exact text `= {`, as in `docDelete`, which
contains group `A`B`, its descendant `A`B`C`, an item assigned to
`A`B`C`, and sibling `A`D` with its own item —
`deleteGroup("A`B", cascadeItems=true)` produces a document in which the
path `A`B` no longer occurs at all — no group region, no descendant
region, no item assignment, no UI-state reference — while the sibling
group `A`D`, its item entry and its tree-status entry are untouched. -/
theorem c5_deletion_completeness :
    (delete_group (("A`B").toList) true docDelete).1.deleted = true
    ∧ (delete_group (("A`B").toList) true docDelete).2 = some docDeleteAfter
    ∧ occursB (("A`B").toList) docDeleteAfter = false
    ∧ occursB (tableMarkerLit (("A`D").toList)) docDeleteAfter = true
    ∧ occursB (("[\"item:222:0:0:0:0:0:0\"] = \"A`D\",").toList) docDeleteAfter = true
    ∧ occursB (("[\"1 A A`D\"] = true,").toList) docDeleteAfter = true := by
  decide

/-! ## Claim C6: the subgroupsRemoved count -/

set_option maxRecDepth 100000 in
/-- C6 counterexample: deleting `A`B` from `docDelete` removes the
descendant region `["A`B`C"]` (it is present before and absent after),
yet the returned `subgroupsRemoved` is 0, not the number of removed
descendant definitions. -/
theorem c6_counterexample :
    occursB (tableMarkerLit (("A`B`C").toList)) docDelete = true
    ∧ (delete_group (("A`B").toList) true docDelete).1.subgroupsRemoved = 0
    ∧ occursB (tableMarkerLit (("A`B`C").toList))
        ((delete_group (("A`B").toList) true docDelete).2.getD docDelete) = false := by
  decide

/-- A document whose descendant definition line is serialized with two
spaces (`=  {`), so that it escapes the loose group-start pattern. -/
def docDeleteWide : Str :=
  ("AscensionTSMDB = \x7b\n"
   ++ "\t\t\t[\"groups\"] = \x7b\n"
   ++ "\t\t\t\t[\"A`B\"] = \x7b\n\t\t\t\t\t[\"Mailing\"] = \x7b\n\t\t\t\t\t\x7d,\n\t\t\t\t\x7d,\n"
   ++ "\t\t\t\t[\"A`B`C\"] =  \x7b\n\t\t\t\t\t[\"Mailing\"] = \x7b\n\t\t\t\t\t\x7d,\n\t\t\t\t\x7d,\n"
   ++ "\t\t\t\x7d,\n"
   ++ "\x7d\n").toList

set_option maxRecDepth 100000 in
/-- C6 amended: the first, looser pattern of the deletion pass also
matches descendant definitions, so `subgroupsRemoved` counts only those
removed descendant definitions whose line does not contain the exact
text `= {` and therefore reaches the second, stricter pattern.  On a
canonically formatted document the count is 0 even though the descendant
region is removed; a descendant serialized as `=  {` is counted. -/
theorem c6_subgroup_count :
    delGroupStart (("A`B").toList)
        (("\t\t\t\t[\"A`B`C\"] = \x7b").toList) = true
    ∧ (delete_group (("A`B").toList) true docDelete).1.subgroupsRemoved = 0
    ∧ delGroupStart (("A`B").toList)
        (("\t\t\t\t[\"A`B`C\"] =  \x7b").toList) = false
    ∧ delSubgroupStart (("A`B").toList)
        (("\t\t\t\t[\"A`B`C\"] =  \x7b").toList) = true
    ∧ (delete_group (("A`B").toList) true docDeleteWide).1.subgroupsRemoved = 1 := by
  decide

/-! ## Claim C2: idempotence of `add_items` -/

/-- A small Ascension document with an empty items table. -/
def docAdd : Str :=
  ("AscensionTSMDB = \x7b\n\t[\"profiles\"] = \x7b\n\t\t[\"Default\"] = \x7b\n\t\t\t[\"items\"] = \x7b\n\t\t\t\x7d,\n\t\t\t[\"operations\"] = \x7b\n\t\t\t\x7d,\n\t\t\x7d,\n\t\x7d,\n\x7d\n").toList

def gTest : Str := ("Test`Group").toList

/-- The document after one `add_items` call for identifier `id`. -/
def docAddOne (id : Nat) : Str :=
  docAdd.take 71 ++ ('\n' :: itemEntryLine tab4 (natStr id) gTest) ++ docAdd.drop 71

theorem matchLitEqBrace_none {lit s : Str} (h : lit.isPrefixOf s = false) :
    matchLitEqBrace lit s = none := by
  simp [matchLitEqBrace, h]

theorem matchItemKeyEq_isSome_lit {idS t : Str} (h : (matchItemKeyEq idS t).isSome) :
    itemKeyLit idS <+: t := by
  by_cases hp : (itemKeyLit idS).isPrefixOf t
  · exact List.isPrefixOf_iff_prefix.mp hp
  · exfalso
    simp only [matchItemKeyEq, hp] at h
    simp at h

theorem itemPre_prefix_keyLit (idS : Str) : itemPreLit <+: itemKeyLit idS :=
  ⟨idS ++ ((":0:0:0:0:0:0\"]").toList), by simp [itemKeyLit, itemPreLit]⟩

/-- The existence check of `add_items` fails on any text in which the
literal `["item:` does not occur at all. -/
theorem reSearchB_keyEq_false {idS s : Str} (h : occursB itemPreLit s = false) :
    reSearchB (matchItemKeyEq idS) s = false := by
  apply reSearchB_false
  apply matcher_none_of_lit _ h
  intro t ht
  exact (itemPre_prefix_keyLit idS).trans (matchItemKeyEq_isSome_lit ht)

theorem braceFree_append {a b : Str} (ha : braceFree a) (hb : braceFree b) :
    braceFree (a ++ b) := by
  intro c hc
  rcases List.mem_append.mp hc with h1 | h2
  · exact ha c h1
  · exact hb c h2

theorem braceFree_digits {d : Str} (hd : ∀ c ∈ d, isDigit c = true) : braceFree d := by
  intro c hc
  have := hd c hc
  constructor
  · intro he; rw [he] at this; simp [isDigit, obr] at this
  · intro he; rw [he] at this; simp [isDigit, cbr] at this

theorem cleanup_noop {s : Str} (h : occursB collapsedLit s = false) :
    cleanup_ui_state s = s := by
  unfold cleanup_ui_state
  rw [findIter_nil (matcher_none_of_lit (fun t ht => matchTableMarker_isSome_lit ht) h)]
  rfl

def addA2 : Str := docAdd.take 71 ++ ('\n' :: (tab4 ++ itemPreLit))

def addB2 : Str :=
  ((":0:0:0:0:0:0\"]").toList) ++ ((" = \"").toList) ++ gTest ++ (("\",").toList)
    ++ docAdd.drop 71

theorem docAddOne_decomp (id : Nat) : docAddOne id = addA2 ++ (natStr id ++ addB2) := by
  simp [docAddOne, addA2, addB2, itemEntryLine, itemKeyLit, itemPreLit, List.append_assoc]

set_option maxRecDepth 100000 in
theorem collapsed_not_in_docAddOne (id : Nat) :
    occursB collapsedLit (docAddOne id) = false := by
  rw [docAddOne_decomp id]
  apply occursB_eq_false.mpr
  exact not_occurs_digits_mid (fun c hc => natStr_digits c hc) natStr_ne_nil
    (by decide) (by decide) (by decide) (by decide)

set_option maxRecDepth 100000 in
theorem add_items_first (id : Nat) :
    add_items [(id, gTest)] docAdd
      = ({added := 1, skipped := 0, errors := []}, some (docAddOne id)) := by
  have hdet : detect_tsm_format docAdd = TsmFormat.ascension := by decide
  have hens : ensure_items_table_exists_ascension docAdd = docAdd := by decide
  have hfind : find_real_items_table docAdd = some ((58 : Nat), (71 : Nat)) := by decide
  have hnoitem : occursB itemPreLit docAdd = false := by decide
  have hskip := @reSearchB_keyEq_false (natStr id) docAdd hnoitem
  have hclean : cleanup_ui_state (docAddOne id) = docAddOne id :=
    cleanup_noop (collapsed_not_in_docAddOne id)
  simp only [add_items, hdet, hens, hfind, add_items_loop, hskip, Bool.false_eq_true,
    if_false, joinChar_single]
  rw [show docAdd.take 71 ++ ('\n' :: itemEntryLine tab4 (natStr id) gTest) ++ docAdd.drop 71
      = docAddOne id from rfl]
  rw [hclean]

/-- Run of `(?::\d+)*` groups: colon-digit suffix blocks of the classic
item-key pattern of `parse_items` (lua_parser.py line 69). -/
def colonDigitRunAux : Nat → Str → Nat
  | 0, _ => 0
  | f + 1, s =>
    match s with
    | ':' :: r =>
      let ds := r.takeWhile isDigit
      if ds.isEmpty then 0 else (1 + ds.length) + colonDigitRunAux f (r.drop ds.length)
    | _ => 0

def colonDigitRun (s : Str) : Nat := colonDigitRunAux s.length s

/-- Matcher for the classic entry pattern
`\["(item:\d+(?::\d+)*?)"\]\s*=\s*"([^"]+)"` of `parse_items`. -/
def matchClassicEntry (s : Str) : Option Nat :=
  if itemPreLit.isPrefixOf s then
    let r := s.drop itemPreLit.length
    let ds := r.takeWhile isDigit
    if ds.isEmpty then none
    else
      let rest := r.drop ds.length
      let grps := colonDigitRun rest
      match rest.drop grps with
      | '"' :: ']' :: r2 =>
        let w1 := wsRun r2
        (match r2.drop w1 with
         | '=' :: r3 =>
           let w2 := wsRun r3
           (match r3.drop w2 with
            | '"' :: r4 =>
              let v := r4.takeWhile (fun c => c ≠ '"')
              if v.isEmpty then none
              else
                (match r4.drop v.length with
                 | '"' :: _ =>
                   some (itemPreLit.length + ds.length + grps + 2 + w1 + 1 + w2 + 1
                     + v.length + 1)
                 | _ => none)
            | _ => none)
         | _ => none)
      | _ => none
  else none

/-- Number of decoded classic item entries in a document. -/
def itemEntryCount (doc : Str) : Nat := (findIter matchClassicEntry doc).length

def addM : Str := docAdd.take 71

def addB : Str := docAdd.drop 71

def addBlk (id : Nat) : Str := '\n' :: itemEntryLine tab4 (natStr id) gTest

theorem docAddOne_decomp2 (id : Nat) : docAddOne id = addM ++ (addBlk id ++ addB) := by
  simp [docAddOne, addM, addB, addBlk, List.append_assoc]

theorem addM_len : addM.length = 71 := by decide

theorem detect_docAddOne (id : Nat) :
    detect_tsm_format (docAddOne id) = TsmFormat.ascension := by
  have hA : occursB ascLit addM = true := by decide
  have hpre : addM <+: docAddOne id := by
    rw [docAddOne_decomp2 id]
    exact List.prefix_append _ _
  have hocc : occursB ascLit (docAddOne id) = true := occursB_of_infix hA hpre.isInfix
  simp [detect_tsm_format, hocc]

def addX : Str := docAdd.take 58

def addY : Str := pySlice 58 71 docAdd

def addP : Str := '\n' :: (tab4 ++ itemPreLit)

def addQ0 : Str :=
  ((":0:0:0:0:0:0\"]").toList) ++ ((" = \"").toList) ++ gTest ++ (("\",").toList)

theorem addBlk_decomp (id : Nat) : addBlk id = addP ++ (natStr id ++ addQ0) := by
  simp [addBlk, addP, addQ0, itemEntryLine, itemKeyLit, itemPreLit, List.append_assoc]

theorem matchMarker_items_std (R : Str) :
    matchTableMarker itemsNameL ('[' :: (("\"items\"] = \x7b").toList ++ R)) = some 13 := rfl

set_option maxRecDepth 10000 in
theorem add2_skip_none (id : Nat) :
    ∀ j, j < addX.length →
      matchTableMarker itemsNameL
        ((addX ++ (addY ++ (addBlk id ++ addB))).drop j) = none := by
  intro j hj
  have hXlen : addX.length = 58 := by decide
  have hdrop : (addX ++ (addY ++ (addBlk id ++ addB))).drop j
      = addX.drop j ++ (addY ++ (addBlk id ++ addB)) := by
    rw [List.drop_append_eq_append_drop]
    have h0 : j - addX.length = 0 := by omega
    rw [h0, List.drop_zero]
  rw [hdrop]
  by_contra hne
  have hsome : (matchTableMarker itemsNameL
      (addX.drop j ++ (addY ++ (addBlk id ++ addB)))).isSome := by
    cases hv : matchTableMarker itemsNameL (addX.drop j ++ (addY ++ (addBlk id ++ addB))) with
    | none => exact absurd hv hne
    | some v => simp
  have hlit := matchTableMarker_isSome_lit hsome
  rw [← List.append_assoc] at hlit
  have hshort : (tableMarkerLit itemsNameL).length ≤ (addX.drop j ++ addY).length := by
    rw [List.length_append, List.length_drop]
    have h1 : (tableMarkerLit itemsNameL).length = 9 := by decide
    have h2 : addY.length = 13 := by decide
    omega
  have hpre2 := prefix_short hlit hshort
  have hfail : ∀ i, i < 58 →
      (tableMarkerLit itemsNameL).isPrefixOf (addX.drop i ++ addY) = false := by decide
  have := hfail j (by omega)
  rw [List.isPrefixOf_iff_prefix.mpr hpre2] at this
  exact absurd this (by simp)

theorem findIterAux_cons_some {m : Matcher} {c : Char} {t : Str} {len : Nat}
    (h : m (c :: t) = some len) (fuel pos : Nat) :
    findIterAux m (fuel + 1) pos (c :: t)
      = (pos, pos + len) :: findIterAux m fuel (pos + len) ((c :: t).drop len) := by
  simp only [findIterAux, h]

set_option maxRecDepth 10000 in
theorem findIter_docAddOne (id : Nat) :
    ∃ rest, findIter (matchTableMarker itemsNameL) (docAddOne id)
      = ((58 : Nat), (71 : Nat)) :: rest := by
  have hXlen : addX.length = 58 := by decide
  have hdoc : docAddOne id = addX ++ (addY ++ (addBlk id ++ addB)) := by
    rw [docAddOne_decomp2 id, show addM = addX ++ addY from by decide, List.append_assoc]
  have hlen : (docAddOne id).length
      = addX.length + (addY ++ (addBlk id ++ addB)).length := by
    rw [hdoc, List.length_append]
  have hfuel2 : (addY ++ (addBlk id ++ addB)).length
      = (12 + (addBlk id ++ addB).length) + 1 := by
    rw [List.length_append, show addY.length = 13 from by decide]
    omega
  have hy2 : addY ++ (addBlk id ++ addB)
      = '[' :: (("\"items\"] = \x7b").toList ++ (addBlk id ++ addB)) := by
    rw [show addY = '[' :: ("\"items\"] = \x7b").toList from by decide, List.cons_append]
  refine ⟨findIterAux (matchTableMarker itemsNameL) (12 + (addBlk id ++ addB).length) 71
      (('[' :: (("\"items\"] = \x7b").toList ++ (addBlk id ++ addB))).drop 13), ?_⟩
  unfold findIter
  rw [hlen, hdoc, findIterAux_skip addX (addY ++ (addBlk id ++ addB)) 0 _ (add2_skip_none id),
    hfuel2, hy2, hXlen, Nat.zero_add]
  rw [findIterAux_cons_some (matchMarker_items_std (addBlk id ++ addB)) _ 58]

theorem drop71_docAddOne (id : Nat) : (docAddOne id).drop 71 = addBlk id ++ addB := by
  rw [docAddOne_decomp2 id]
  exact List.drop_left' (by decide)

theorem take58_docAddOne (id : Nat) : (docAddOne id).take 58 = addX := by
  have hdoc : docAddOne id = addX ++ (addY ++ (addBlk id ++ addB)) := by
    rw [docAddOne_decomp2 id, show addM = addX ++ addY from by decide, List.append_assoc]
  rw [hdoc]
  exact List.take_left' (by decide)

theorem lookback_docAddOne (id : Nat) : lookback_inside_gts (docAddOne id) 58 = false := by
  have hpre : pySlice (58 - 500) 58 (docAddOne id) = addX := by
    show ((docAddOne id).take 58).drop (58 - 500) = addX
    norm_num
    exact take58_docAddOne id
  simp [lookback_inside_gts, hpre, show occursB gtsLit addX = false from by decide]

theorem ensure_docAddOne (id : Nat) :
    ensure_items_table_exists_ascension (docAddOne id) = docAddOne id := by
  obtain ⟨rest, hscan⟩ := findIter_docAddOne id
  unfold ensure_items_table_exists_ascension
  rw [hscan]
  simp [items_exists_go, lookback_docAddOne id]

theorem braceFree_of_all {l : Str} (h : ∀ c ∈ l, c ≠ obr ∧ c ≠ cbr) : braceFree l := h

theorem braceFree_addBlk (id : Nat) : braceFree (addBlk id) := by
  rw [addBlk_decomp id]
  exact braceFree_append (braceFree_of_all (by decide))
    (braceFree_append (braceFree_digits (fun c hc => natStr_digits c hc))
      (braceFree_of_all (by decide)))

theorem walk_docAddOne (id : Nat) :
    walkD ((docAddOne id).drop 71) 1 = (5 + (addBlk id).length, 0) := by
  rw [drop71_docAddOne id,
    walkD_bal (Bal.of_braceFree (braceFree_addBlk id)) addB 1 (by omega),
    show walkD addB 1 = (5, 0) from by decide]

theorem tc_docAddOne (id : Nat) :
    pySlice 71 (71 + (5 + (addBlk id).length) - 1) (docAddOne id)
      = addBlk id ++ addB.take 4 := by
  unfold pySlice
  rw [List.drop_take, drop71_docAddOne id]
  have h1 : 71 + (5 + (addBlk id).length) - 1 - 71 = (addBlk id).length + 4 := by omega
  rw [h1, List.take_append_eq_append_take, List.take_of_length_le (by omega)]
  have h2 : (addBlk id).length + 4 - (addBlk id).length = 4 := by omega
  rw [h2]

theorem trueComma_not_in_tc (id : Nat) :
    occursB trueCommaLit (addBlk id ++ addB.take 4) = false := by
  rw [addBlk_decomp id]
  simp only [List.append_assoc]
  apply occursB_eq_false.mpr
  exact not_occurs_digits_mid (fun c hc => natStr_digits c hc) natStr_ne_nil
    (by decide) (by decide) (by decide) (by decide)

theorem eqTrue_not_in_tc (id : Nat) :
    occursB eqTrueLit (addBlk id ++ addB.take 4) = false := by
  rw [addBlk_decomp id]
  simp only [List.append_assoc]
  apply occursB_eq_false.mpr
  exact not_occurs_digits_mid (fun c hc => natStr_digits c hc) natStr_ne_nil
    (by decide) (by decide) (by decide) (by decide)

theorem find_items_docAddOne (id : Nat) :
    find_real_items_table (docAddOne id) = some (58, 71) := by
  obtain ⟨rest, hscan⟩ := findIter_docAddOne id
  unfold find_real_items_table
  rw [hscan]
  simp only [find_real_items_table_go, lookback_docAddOne id, Bool.false_eq_true, if_false,
    walk_docAddOne id]
  rw [tc_docAddOne id, trueComma_not_in_tc id, eqTrue_not_in_tc id]
  simp

theorem matchItemKeyEq_self (idS rest : Str) :
    matchItemKeyEq idS (itemKeyLit idS ++ (' ' :: '=' :: rest))
      = some ((itemKeyLit idS).length + 2) := by
  unfold matchItemKeyEq
  simp only [isPrefixOf_append_self, if_true, List.drop_left]
  have hw : wsRun (' ' :: '=' :: rest) = 1 := by
    simp [wsRun, show isWs ' ' = true from by decide, show isWs '=' = false from by decide]
  rw [hw]
  simp

theorem item_exists_docAddOne (id : Nat) :
    reSearchB (matchItemKeyEq (natStr id)) (docAddOne id) = true := by
  have hsuf : (itemKeyLit (natStr id)
        ++ (' ' :: '=' :: (' ' :: '"' :: (gTest ++ ('"' :: ',' :: addB)))))
      <:+ docAddOne id := by
    refine ⟨addM ++ ('\n' :: tab4), ?_⟩
    rw [docAddOne_decomp2 id]
    simp [addBlk, itemEntryLine, List.append_assoc]
  apply reSearchB_true hsuf
  · simp [itemKeyLit]
  · rw [matchItemKeyEq_self]
    simp

theorem add_items_second (id : Nat) :
    add_items [(id, gTest)] (docAddOne id)
      = ({added := 0, skipped := 1, errors := []}, none) := by
  simp only [add_items, detect_docAddOne id, ensure_docAddOne id, find_items_docAddOne id,
    add_items_loop, item_exists_docAddOne id, if_true]

/-- C2: calling `add_items` twice with the same single identifier-to-group
mapping on the same document yields `added = 1, skipped = 0` on the first
call, `added = 0, skipped = 1` and no write on the second call, and the
number of decoded item entries after both calls equals the number after one
call. -/
theorem c2_add_items_idempotent (id : Nat) :
    (add_items [(id, gTest)] docAdd).1.added = 1
    ∧ (add_items [(id, gTest)] docAdd).1.skipped = 0
    ∧ (add_items [(id, gTest)]
        ((add_items [(id, gTest)] docAdd).2.getD docAdd)).1.added = 0
    ∧ (add_items [(id, gTest)]
        ((add_items [(id, gTest)] docAdd).2.getD docAdd)).1.skipped = 1
    ∧ (add_items [(id, gTest)]
        ((add_items [(id, gTest)] docAdd).2.getD docAdd)).2 = none
    ∧ itemEntryCount
        ((add_items [(id, gTest)]
            ((add_items [(id, gTest)] docAdd).2.getD docAdd)).2.getD
          ((add_items [(id, gTest)] docAdd).2.getD docAdd))
      = itemEntryCount ((add_items [(id, gTest)] docAdd).2.getD docAdd) := by
  rw [add_items_first id]
  simp only [Option.getD_some]
  rw [add_items_second id]
  simp

/-! ## Claim C7: rename counts and residual occurrences -/

theorem pyCountAux_fuel {p : Str} (hp : p ≠ []) :
    ∀ (f : Nat) (s : Str) (g : Nat), s.length ≤ f → s.length ≤ g →
      pyCountAux p f s = pyCountAux p g s := by
  have hple : 1 ≤ p.length := List.length_pos.mpr hp
  intro f
  induction f with
  | zero =>
    intro s g hf _
    have hs : s = [] := List.length_eq_zero.mp (by omega)
    subst hs
    cases g <;> simp [pyCountAux]
  | succ f ih =>
    intro s g hf hg
    cases s with
    | nil => cases g <;> simp [pyCountAux]
    | cons c t =>
      simp only [List.length_cons] at hf hg
      cases g with
      | zero => omega
      | succ g2 =>
        simp only [pyCountAux]
        by_cases hm : p.isPrefixOf (c :: t)
        · rw [if_pos hm, if_pos hm]
          have hlen : ((c :: t).drop p.length).length ≤ f := by
            rw [List.length_drop]
            simp only [List.length_cons]
            omega
          have hlen2 : ((c :: t).drop p.length).length ≤ g2 := by
            rw [List.length_drop]
            simp only [List.length_cons]
            omega
          rw [ih _ g2 hlen hlen2]
        · rw [if_neg hm, if_neg hm]
          exact ih t g2 (by omega) (by omega)

theorem pyReplaceAux_fuel {p q : Str} (hp : p ≠ []) :
    ∀ (f : Nat) (s : Str) (g : Nat), s.length ≤ f → s.length ≤ g →
      pyReplaceAux p q f s = pyReplaceAux p q g s := by
  have hple : 1 ≤ p.length := List.length_pos.mpr hp
  intro f
  induction f with
  | zero =>
    intro s g hf _
    have hs : s = [] := List.length_eq_zero.mp (by omega)
    subst hs
    cases g <;> simp [pyReplaceAux]
  | succ f ih =>
    intro s g hf hg
    cases s with
    | nil => cases g <;> simp [pyReplaceAux]
    | cons c t =>
      simp only [List.length_cons] at hf hg
      cases g with
      | zero => omega
      | succ g2 =>
        simp only [pyReplaceAux]
        by_cases hm : p.isPrefixOf (c :: t)
        · rw [if_pos hm, if_pos hm]
          have hlen : ((c :: t).drop p.length).length ≤ f := by
            rw [List.length_drop]
            simp only [List.length_cons]
            omega
          have hlen2 : ((c :: t).drop p.length).length ≤ g2 := by
            rw [List.length_drop]
            simp only [List.length_cons]
            omega
          rw [ih _ g2 hlen hlen2]
        · rw [if_neg hm, if_neg hm]
          rw [ih t g2 (by omega) (by omega)]

theorem pyCountAux_skip {p : Str} :
    ∀ (X R : Str) (fuel : Nat),
      (∀ j, j < X.length → p.isPrefixOf ((X ++ R).drop j) = false) →
      pyCountAux p (X.length + fuel) (X ++ R) = pyCountAux p fuel R := by
  intro X
  induction X with
  | nil => intro R fuel _; simp
  | cons c X2 ih =>
    intro R fuel hnone
    have h0 : p.isPrefixOf (c :: (X2 ++ R)) = false := by
      have := hnone 0 (by simp)
      simpa using this
    simp only [List.cons_append, List.length_cons]
    have harith : X2.length + 1 + fuel = (X2.length + fuel) + 1 := by omega
    rw [harith]
    simp only [pyCountAux, h0, Bool.false_eq_true, if_false]
    exact ih R fuel (fun j hj => by
      have := hnone (j + 1) (by simp; omega)
      simpa using this)

theorem pyReplaceAux_skip {p q : Str} :
    ∀ (X R : Str) (fuel : Nat),
      (∀ j, j < X.length → p.isPrefixOf ((X ++ R).drop j) = false) →
      pyReplaceAux p q (X.length + fuel) (X ++ R) = X ++ pyReplaceAux p q fuel R := by
  intro X
  induction X with
  | nil => intro R fuel _; simp
  | cons c X2 ih =>
    intro R fuel hnone
    have h0 : p.isPrefixOf (c :: (X2 ++ R)) = false := by
      have := hnone 0 (by simp)
      simpa using this
    simp only [List.cons_append, List.length_cons]
    have harith : X2.length + 1 + fuel = (X2.length + fuel) + 1 := by omega
    rw [harith]
    simp only [pyReplaceAux, h0, Bool.false_eq_true, if_false]
    rw [ih R fuel (fun j hj => by
      have := hnone (j + 1) (by simp; omega)
      simpa using this)]

theorem pyCount_skip {p X R : Str}
    (h : ∀ j, j < X.length → p.isPrefixOf ((X ++ R).drop j) = false) :
    pyCount p (X ++ R) = pyCount p R := by
  unfold pyCount
  rw [List.length_append]
  exact pyCountAux_skip X R R.length h

theorem pyReplace_skip {p q X R : Str}
    (h : ∀ j, j < X.length → p.isPrefixOf ((X ++ R).drop j) = false) :
    pyReplace p q (X ++ R) = X ++ pyReplace p q R := by
  unfold pyReplace
  rw [List.length_append]
  exact pyReplaceAux_skip X R R.length h

theorem pyCount_cons_match {p R : Str} (hp : p ≠ []) :
    pyCount p (p ++ R) = 1 + pyCount p R := by
  obtain ⟨c, p2, rfl⟩ := List.exists_cons_of_ne_nil hp
  have hpre : (c :: p2).isPrefixOf (c :: (p2 ++ R)) = true := by
    rw [← List.cons_append]
    exact isPrefixOf_append_self (c :: p2) R
  have hdrop : (c :: (p2 ++ R)).drop (c :: p2).length = R := by
    rw [← List.cons_append]
    exact List.drop_left (c :: p2) R
  unfold pyCount
  rw [show (c :: p2) ++ R = c :: (p2 ++ R) from List.cons_append c p2 R]
  rw [show (c :: (p2 ++ R)).length = (p2.length + R.length) + 1 from by simp]
  simp only [pyCountAux, hpre, if_true, hdrop]
  congr 1
  exact pyCountAux_fuel hp (p2.length + R.length) R R.length (by omega) (le_refl _)

theorem pyReplace_cons_match {p q R : Str} (hp : p ≠ []) :
    pyReplace p q (p ++ R) = q ++ pyReplace p q R := by
  obtain ⟨c, p2, rfl⟩ := List.exists_cons_of_ne_nil hp
  have hpre : (c :: p2).isPrefixOf (c :: (p2 ++ R)) = true := by
    rw [← List.cons_append]
    exact isPrefixOf_append_self (c :: p2) R
  have hdrop : (c :: (p2 ++ R)).drop (c :: p2).length = R := by
    rw [← List.cons_append]
    exact List.drop_left (c :: p2) R
  unfold pyReplace
  rw [show (c :: p2) ++ R = c :: (p2 ++ R) from List.cons_append c p2 R]
  rw [show (c :: (p2 ++ R)).length = (p2.length + R.length) + 1 from by simp]
  simp only [pyReplaceAux, hpre, if_true, hdrop]
  congr 1
  exact pyReplaceAux_fuel hp (p2.length + R.length) R R.length (by omega) (le_refl _)

theorem occursB_append_false {p X R : Str}
    (h1 : ∀ j, j < X.length → p.isPrefixOf ((X ++ R).drop j) = false)
    (h2 : occursB p R = false) : occursB p (X ++ R) = false := by
  induction X with
  | nil => simpa using h2
  | cons c X2 ih =>
    simp only [List.cons_append, occursB, Bool.or_eq_false_iff]
    constructor
    · have := h1 0 (by simp)
      simpa using this
    · exact ih (fun j hj => by
        have := h1 (j + 1) (by simp; omega)
        simpa using this)

/-- Token shape of a document for the rename scenario: free text,
occurrences of the old path as an exact quoted value, and occurrences of
the old path as quoted-value prefix followed by the separator. -/
inductive RTok where
  | txt (t : Str)
  | occE
  | occS
deriving DecidableEq, Repr

/-- The document before the rename. -/
def render0 (old : Str) : List RTok → Str
  | [] => []
  | RTok.txt t :: r => t ++ render0 old r
  | RTok.occE :: r => quoteExact old ++ render0 old r
  | RTok.occS :: r => quoteSub old ++ render0 old r

/-- The document after the first substitution (exact quoted values). -/
def render1 (old new : Str) : List RTok → Str
  | [] => []
  | RTok.txt t :: r => t ++ render1 old new r
  | RTok.occE :: r => quoteExact new ++ render1 old new r
  | RTok.occS :: r => quoteSub old ++ render1 old new r

/-- The document after both substitutions. -/
def render2 (new : Str) : List RTok → Str
  | [] => []
  | RTok.txt t :: r => t ++ render2 new r
  | RTok.occE :: r => quoteExact new ++ render2 new r
  | RTok.occS :: r => quoteSub new ++ render2 new r

def numE : List RTok → Nat
  | [] => 0
  | RTok.txt _ :: r => numE r
  | RTok.occE :: r => numE r + 1
  | RTok.occS :: r => numE r

def numS : List RTok → Nat
  | [] => 0
  | RTok.txt _ :: r => numS r
  | RTok.occE :: r => numS r
  | RTok.occS :: r => numS r + 1

/-- No occurrence of `p` starts inside the region `X` of `X ++ R`. -/
def noStart (p X R : Str) : Bool :=
  (List.range X.length).all (fun j => !(p.isPrefixOf ((X ++ R).drop j)))

theorem noStart_iff {p X R : Str} :
    noStart p X R = true ↔ ∀ j, j < X.length → p.isPrefixOf ((X ++ R).drop j) = false := by
  simp [noStart, List.all_eq_true, List.mem_range]

/-- Non-overlap conditions for the first substitution pass over the
original document. -/
def clean1 (old : Str) : List RTok → Bool
  | [] => true
  | RTok.txt t :: r => noStart (quoteExact old) t (render0 old r) && clean1 old r
  | RTok.occE :: r => clean1 old r
  | RTok.occS :: r => noStart (quoteExact old) (quoteSub old) (render0 old r) && clean1 old r

/-- Non-overlap conditions for counting prefixed occurrences in the
original document. -/
def clean0S (old : Str) : List RTok → Bool
  | [] => true
  | RTok.txt t :: r => noStart (quoteSub old) t (render0 old r) && clean0S old r
  | RTok.occE :: r => noStart (quoteSub old) (quoteExact old) (render0 old r) && clean0S old r
  | RTok.occS :: r => clean0S old r

/-- Non-overlap conditions for the second substitution pass over the
once-substituted document. -/
def clean2 (old new : Str) : List RTok → Bool
  | [] => true
  | RTok.txt t :: r => noStart (quoteSub old) t (render1 old new r) && clean2 old new r
  | RTok.occE :: r => noStart (quoteSub old) (quoteExact new) (render1 old new r) && clean2 old new r
  | RTok.occS :: r => clean2 old new r

/-- Conditions ensuring the final document is free of the old path as a
quoted value, exact or prefixed. -/
def clean3 (old new : Str) : List RTok → Bool
  | [] => true
  | RTok.txt t :: r =>
    noStart (quoteExact old) t (render2 new r) && noStart (quoteSub old) t (render2 new r)
      && clean3 old new r
  | RTok.occE :: r =>
    noStart (quoteExact old) (quoteExact new) (render2 new r)
      && noStart (quoteSub old) (quoteExact new) (render2 new r) && clean3 old new r
  | RTok.occS :: r =>
    noStart (quoteExact old) (quoteSub new) (render2 new r)
      && noStart (quoteSub old) (quoteSub new) (render2 new r) && clean3 old new r

theorem quoteExact_ne_nil (p : Str) : quoteExact p ≠ [] := by simp [quoteExact]

theorem quoteSub_ne_nil (p : Str) : quoteSub p ≠ [] := by simp [quoteSub]

theorem pass1_spec (old new : Str) :
    ∀ toks, clean1 old toks = true →
      pyCount (quoteExact old) (render0 old toks) = numE toks
      ∧ pyReplace (quoteExact old) (quoteExact new) (render0 old toks)
          = render1 old new toks := by
  intro toks
  induction toks with
  | nil => intro _; exact ⟨rfl, rfl⟩
  | cons tok r ih =>
    intro h
    cases tok with
    | txt t =>
      simp only [clean1, Bool.and_eq_true] at h
      have hns := noStart_iff.mp h.1
      obtain ⟨ihc, ihr⟩ := ih h.2
      refine ⟨?_, ?_⟩
      · rw [render0, numE, pyCount_skip hns, ihc]
      · rw [render0, render1, pyReplace_skip hns, ihr]
    | occE =>
      obtain ⟨ihc, ihr⟩ := ih h
      refine ⟨?_, ?_⟩
      · rw [render0, numE, pyCount_cons_match (quoteExact_ne_nil old), ihc]
        omega
      · rw [render0, render1, pyReplace_cons_match (quoteExact_ne_nil old), ihr]
    | occS =>
      simp only [clean1, Bool.and_eq_true] at h
      have hns := noStart_iff.mp h.1
      obtain ⟨ihc, ihr⟩ := ih h.2
      refine ⟨?_, ?_⟩
      · rw [render0, numE, pyCount_skip hns, ihc]
      · rw [render0, render1, pyReplace_skip hns, ihr]

theorem count0S_spec (old : Str) :
    ∀ toks, clean0S old toks = true →
      pyCount (quoteSub old) (render0 old toks) = numS toks := by
  intro toks
  induction toks with
  | nil => intro _; rfl
  | cons tok r ih =>
    intro h
    cases tok with
    | txt t =>
      simp only [clean0S, Bool.and_eq_true] at h
      rw [render0, numS, pyCount_skip (noStart_iff.mp h.1), ih h.2]
    | occE =>
      simp only [clean0S, Bool.and_eq_true] at h
      rw [render0, numS, pyCount_skip (noStart_iff.mp h.1), ih h.2]
    | occS =>
      rw [render0, numS, pyCount_cons_match (quoteSub_ne_nil old), ih h]
      omega

theorem pass2_spec (old new : Str) :
    ∀ toks, clean2 old new toks = true →
      pyCount (quoteSub old) (render1 old new toks) = numS toks
      ∧ pyReplace (quoteSub old) (quoteSub new) (render1 old new toks)
          = render2 new toks := by
  intro toks
  induction toks with
  | nil => intro _; exact ⟨rfl, rfl⟩
  | cons tok r ih =>
    intro h
    cases tok with
    | txt t =>
      simp only [clean2, Bool.and_eq_true] at h
      have hns := noStart_iff.mp h.1
      obtain ⟨ihc, ihr⟩ := ih h.2
      refine ⟨?_, ?_⟩
      · rw [render1, numS, pyCount_skip hns, ihc]
      · rw [render1, render2, pyReplace_skip hns, ihr]
    | occE =>
      simp only [clean2, Bool.and_eq_true] at h
      have hns := noStart_iff.mp h.1
      obtain ⟨ihc, ihr⟩ := ih h.2
      refine ⟨?_, ?_⟩
      · rw [render1, numS, pyCount_skip hns, ihc]
      · rw [render1, render2, pyReplace_skip hns, ihr]
    | occS =>
      obtain ⟨ihc, ihr⟩ := ih h
      refine ⟨?_, ?_⟩
      · rw [render1, numS, pyCount_cons_match (quoteSub_ne_nil old), ihc]
        omega
      · rw [render1, render2, pyReplace_cons_match (quoteSub_ne_nil old), ihr]

theorem residual_spec (old new : Str) :
    ∀ toks, clean3 old new toks = true →
      occursB (quoteExact old) (render2 new toks) = false
      ∧ occursB (quoteSub old) (render2 new toks) = false := by
  intro toks
  induction toks with
  | nil => intro _; exact ⟨rfl, rfl⟩
  | cons tok r ih =>
    intro h
    cases tok with
    | txt t =>
      simp only [clean3, Bool.and_eq_true] at h
      obtain ⟨⟨h1, h2⟩, h3⟩ := h
      obtain ⟨ih1, ih2⟩ := ih h3
      exact ⟨by rw [render2]; exact occursB_append_false (noStart_iff.mp h1) ih1,
             by rw [render2]; exact occursB_append_false (noStart_iff.mp h2) ih2⟩
    | occE =>
      simp only [clean3, Bool.and_eq_true] at h
      obtain ⟨⟨h1, h2⟩, h3⟩ := h
      obtain ⟨ih1, ih2⟩ := ih h3
      exact ⟨by rw [render2]; exact occursB_append_false (noStart_iff.mp h1) ih1,
             by rw [render2]; exact occursB_append_false (noStart_iff.mp h2) ih2⟩
    | occS =>
      simp only [clean3, Bool.and_eq_true] at h
      obtain ⟨⟨h1, h2⟩, h3⟩ := h
      obtain ⟨ih1, ih2⟩ := ih h3
      exact ⟨by rw [render2]; exact occursB_append_false (noStart_iff.mp h1) ih1,
             by rw [render2]; exact occursB_append_false (noStart_iff.mp h2) ih2⟩

/-- C7 counterexample: with overlapping quoted occurrences the post-edit
document still contains the old path as an exact quoted value.  On the
document `"A"A"` (two overlapping exact quoted occurrences of `A`),
`rename_group` counts one occurrence, and the substituted document
`"B"A"` still contains `"A"`. -/
theorem c7_counterexample :
    (rename_group (("A").toList) (("B").toList) (("\"A\"A\"").toList)).1.groupsUpdated = 1
    ∧ (rename_group (("A").toList) (("B").toList) (("\"A\"A\"").toList)).2
        = some (("\"B\"A\"").toList)
    ∧ occursB (quoteExact (("A").toList))
        ((rename_group (("A").toList) (("B").toList) (("\"A\"A\"").toList)).2.getD [])
      = true := by
  decide

/-- C7 (amended): on a document assembled from free text, `m` exact
quoted occurrences and `n` prefixed quoted occurrences of the old path,
where no further occurrence of the old or renamed path starts inside any
free-text region or spans a region boundary (the `clean` side
conditions), `rename_group` reports `groupsUpdated = m + n` and
`itemsUpdated = m`, writes the doubly substituted document, and the
post-edit document contains zero occurrences of the old path as an exact
or prefixed quoted value. -/
theorem c7_rename_counts (old new : Str) (toks : List RTok)
    (h1 : clean1 old toks = true) (h0 : clean0S old toks = true)
    (h2 : clean2 old new toks = true) (h3 : clean3 old new toks = true)
    (hnz : numE toks + numS toks ≠ 0) :
    rename_group old new (render0 old toks)
      = ({renamed := true, itemsUpdated := numE toks,
          groupsUpdated := numE toks + numS toks, errors := []},
         some (render2 new toks))
    ∧ occursB (quoteExact old) (render2 new toks) = false
    ∧ occursB (quoteSub old) (render2 new toks) = false := by
  obtain ⟨hc1, hr1⟩ := pass1_spec old new toks h1
  have hc0 := count0S_spec old toks h0
  obtain ⟨hc2, hr2⟩ := pass2_spec old new toks h2
  obtain ⟨hres1, hres2⟩ := residual_spec old new toks h3
  refine ⟨?_, hres1, hres2⟩
  simp only [rename_group, hc1, hc0, hr1, hr2]
  rw [if_neg (by omega : ¬(numE toks = 0 ∧ numS toks = 0))]

def c7toks : List RTok :=
  [RTok.txt (("a = ").toList), RTok.occE,
   RTok.txt ((",\nb = ").toList), RTok.occE,
   RTok.txt ((",\nc = ").toList), RTok.occE,
   RTok.txt ((",\nd = ").toList), RTok.occS,
   RTok.txt (("Sub\",\ne = ").toList), RTok.occS,
   RTok.txt (("Tail\",\n").toList)]

set_option maxRecDepth 10000 in
/-- Witness: a document with 3 exact and 2 prefixed quoted occurrences
of `Grp` is renamed to `New` with `groupsUpdated = 5` and no residual
occurrence. -/
theorem c7_rename_counts_witness :
    numE c7toks = 3 ∧ numS c7toks = 2 ∧ numE c7toks + numS c7toks ≠ 0
    ∧ (rename_group (("Grp").toList) (("New").toList) (render0 (("Grp").toList) c7toks)
        = ({renamed := true, itemsUpdated := numE c7toks,
            groupsUpdated := numE c7toks + numS c7toks, errors := []},
           some (render2 (("New").toList) c7toks))
       ∧ occursB (quoteExact (("Grp").toList)) (render2 (("New").toList) c7toks) = false
       ∧ occursB (quoteSub (("Grp").toList)) (render2 (("New").toList) c7toks) = false) :=
  ⟨by decide, by decide, by decide,
   c7_rename_counts (("Grp").toList) (("New").toList) c7toks (by decide) (by decide)
     (by decide) (by decide) (by decide)⟩

/-! ## Claim C1: decoy exclusion for the items table -/

/-- A document with two `["items"]` markers: a decoy holding only a
boolean flag serialized as `false`, followed by a table holding a nested
sub-table. -/
def docC1 : Str :=
  ("AscensionTSMDB = \x7b\n"
   ++ "\t[\"items\"] = \x7b\n\t\t[\"f\"] = false,\n\t\x7d,\n"
   ++ "\t[\"items\"] = \x7b\n\t\t[\"sub\"] = \x7b\n\t\t\x7d,\n\t\x7d,\n"
   ++ "\x7d\n").toList

set_option maxRecDepth 100000 in
/-- C1 counterexample: the decoy content signature excludes only tables
whose serialized contents contain `true,` or `= true`.  On `docC1` the
first marker's table holds a boolean flag serialized as `false` and the
second holds a nested sub-table, yet the matcher selects the first
(decoy) span and `add_items` inserts the new entry inside it, before the
authoritative marker. -/
theorem c1_counterexample :
    detect_tsm_format docC1 = TsmFormat.ascension
    ∧ findIter (matchTableMarker itemsNameL) docC1 = [(20, 33), (56, 69)]
    ∧ occursB eqFalseLit (pySlice 33 52 docC1) = true
    ∧ occursB trueCommaLit (pySlice 33 52 docC1) = false
    ∧ occursB eqTrueLit (pySlice 33 52 docC1) = false
    ∧ occursB eqBraceLit (pySlice 69 90 docC1) = true
    ∧ find_real_items_table docC1 = some (20, 33)
    ∧ (add_items [(5, gTest)] docC1).2
        = some (docC1.take 33 ++ ('\n' :: itemEntryLine tab4 (natStr 5) gTest)
            ++ docC1.drop 33) := by
  decide

/-- C1 (amended): the span selected by `_find_real_items_table` is always
one of the scanned `["items"]` markers, is never inside a
`groupTreeStatus` container, and its brace-walked table content contains
neither `true,` nor `= true` — the decoy exclusion implemented by the
code rejects true-flag signatures only, not boolean-flag tables in
general. -/
theorem c1_items_table_selection (content : Str) (ms me : Nat)
    (h : find_real_items_table content = some (ms, me)) :
    (ms, me) ∈ findIter (matchTableMarker itemsNameL) content
    ∧ lookback_inside_gts content ms = false
    ∧ occursB trueCommaLit
        (pySlice me (me + (walkD (content.drop me) 1).1 - 1) content) = false
    ∧ occursB eqTrueLit
        (pySlice me (me + (walkD (content.drop me) 1).1 - 1) content) = false := by
  have hgo : ∀ (l : List (Nat × Nat)),
      find_real_items_table_go content l = some (ms, me) →
      (ms, me) ∈ l
      ∧ lookback_inside_gts content ms = false
      ∧ occursB trueCommaLit
          (pySlice me (me + (walkD (content.drop me) 1).1 - 1) content) = false
      ∧ occursB eqTrueLit
          (pySlice me (me + (walkD (content.drop me) 1).1 - 1) content) = false := by
    intro l
    induction l with
    | nil => intro h2; simp [find_real_items_table_go] at h2
    | cons mm rest ih =>
      intro h2
      obtain ⟨a, b⟩ := mm
      simp only [find_real_items_table_go] at h2
      by_cases h1 : lookback_inside_gts content a
      · rw [if_pos h1] at h2
        have := ih h2
        exact ⟨List.mem_cons_of_mem _ this.1, this.2⟩
      · rw [if_neg h1] at h2
        by_cases h3 : (occursB trueCommaLit
              (pySlice b (b + (walkD (content.drop b) 1).1 - 1) content)
            || occursB eqTrueLit
              (pySlice b (b + (walkD (content.drop b) 1).1 - 1) content)) = true
        · rw [if_pos h3] at h2
          have := ih h2
          exact ⟨List.mem_cons_of_mem _ this.1, this.2⟩
        · rw [if_neg h3] at h2
          have hinj := Option.some.inj h2
          have ea : a = ms := congrArg (fun x : Nat × Nat => x.1) hinj
          have eb : b = me := congrArg (fun x : Nat × Nat => x.2) hinj
          subst ea
          subst eb
          rw [Bool.or_eq_true] at h3
          push_neg at h3
          refine ⟨List.mem_cons_self _ _, ?_, ?_, ?_⟩
          · cases hv : lookback_inside_gts content a
            · rfl
            · exact absurd hv h1
          · cases hv : occursB trueCommaLit
                (pySlice b (b + (walkD (content.drop b) 1).1 - 1) content)
            · rfl
            · exact absurd hv h3.1
          · cases hv : occursB eqTrueLit
                (pySlice b (b + (walkD (content.drop b) 1).1 - 1) content)
            · rfl
            · exact absurd hv h3.2
  exact hgo _ h

set_option maxRecDepth 40000 in
/-- Witness: the span selected on `docAdd` is the scanned marker
`(58, 71)`, outside any `groupTreeStatus` container and free of true-flag
signatures. -/
theorem c1_items_table_selection_witness :
    (((58 : Nat), (71 : Nat)) ∈ findIter (matchTableMarker itemsNameL) docAdd
      ∧ lookback_inside_gts docAdd 58 = false
      ∧ occursB trueCommaLit
          (pySlice 71 (71 + (walkD (docAdd.drop 71) 1).1 - 1) docAdd) = false
      ∧ occursB eqTrueLit
          (pySlice 71 (71 + (walkD (docAdd.drop 71) 1).1 - 1) docAdd) = false) :=
  c1_items_table_selection docAdd 58 71 (by decide)
